import Mathlib

/-!
# jsonr binary codec (`src/binary.js`): shallow embedding and verified properties

The file embeds the `Encoder` and `Decoder` classes of `src/binary.js`.

Modelling conventions

* Bytes are natural numbers below 256, byte sequences are `List Nat`.
* JavaScript integer operators (`|`, `&`, `<<`, `>>>`) are modelled on `Int` with the
  `ToInt32` / `ToUint32` conversions and the masking of the shift count made explicit.
* A JavaScript number is `JsNumber`: NaN, the two infinities, or a finite dyadic rational
  `num / 2 ^ exp` (every finite double is one). Negative zero is identified with zero. The
  sum `value + 16` is computed exactly; it agrees with the IEEE-754 sum whenever that sum is
  representable, in particular on all integers of magnitude below `2 ^ 52`.
* A JavaScript string is a Lean `String`, a sequence of Unicode scalar values; strings with
  unpaired surrogates are outside the model. `TextEncoder` and `TextDecoder('utf-8')` are
  modelled after the WHATWG Encoding standard (UTF-8, replacement of malformed input by
  U+FFFD and, for the decoder, removal of one leading byte order mark).
* The `{}` objects used as string-keyed maps (`_staticPositions`, `_dynamicPositions`, and
  the objects built by the decoder) are modelled by their own properties; an assignment to
  the key `__proto__` creates no own property, as in JavaScript.
* The encoder's output buffer is modelled by the bytes written so far (`bytes`, whose
  length is `_offset`) together with the length of the underlying `Uint8Array`
  (`capacity`); everything beyond `_offset` is zero. A write beyond `capacity` throws
  a `RangeError`, as `DataView.prototype.setUint8` and `TypedArray.prototype.set` do.
* Thrown exceptions are values of `EncoderError` / `DecoderFailure` in the `Except` monad.
* The recursive descent of the decoder is structurally recursive on a fuel argument that
  every call and every loop iteration decrements; `Decoder.decode` supplies
  `3 * byteLength + 3`, which is never exhausted (`Decoder.run_ne_outOfFuel`).
-/

namespace Jsonr

deriving instance DecidableEq for Except

/-! ## JavaScript integer conversions and bit operators -/

/-- The abstract operation `ToUint32` on an integral number. -/
def toUint32 (x : Int) : Nat := (x % 4294967296).toNat

/-- The abstract operation `ToInt32` on an integral number. -/
def toInt32 (x : Int) : Int :=
  if toUint32 x < 2147483648 then (toUint32 x : Int) else (toUint32 x : Int) - 4294967296

/-- The operator `a | b`. -/
def jsOr (a b : Int) : Int := toInt32 ((toUint32 a ||| toUint32 b : Nat) : Int)

/-- The operator `a & b`. -/
def jsAnd (a b : Int) : Int := toInt32 ((toUint32 a &&& toUint32 b : Nat) : Int)

/-- The operator `a << n`: the shift count is taken modulo 32. -/
def jsShl (a : Int) (n : Nat) : Int := toInt32 ((toUint32 a <<< (n % 32) : Nat) : Int)

/-- The operator `a >>> n`: the shift count is taken modulo 32. -/
def jsUShr (a : Int) (n : Nat) : Int := ((toUint32 a >>> (n % 32) : Nat) : Int)

/-- Big-endian bytes of the low 16 bits of `v` (what `setUint16` stores). -/
def uint16Bytes (v : Int) : List Nat :=
  let u := (v % 65536).toNat
  [u / 256, u % 256]

/-- Big-endian bytes of the low 32 bits of `v` (what `setUint32` stores). -/
def uint32Bytes (v : Int) : List Nat :=
  let u := toUint32 v
  [u / 16777216, u / 65536 % 256, u / 256 % 256, u % 256]

/-! ## Numbers -/

/-- Floor of the binary logarithm, by halving (`fuel` bounds the number of halvings). -/
def log2Fuel : Nat → Nat → Nat
  | 0, _ => 0
  | fuel + 1, n => if n < 2 then 0 else log2Fuel fuel (n / 2) + 1

/-- A JavaScript number: NaN, an infinity, or the finite value `num / 2 ^ exp`.
The canonical form of a finite value has `exp = 0` or `num` odd. -/
inductive JsNumber
  | nan
  | posInf
  | negInf
  | fin (num : Int) (exp : Nat)
  deriving DecidableEq, Repr

namespace JsNumber

/-- An integer as a number. -/
def ofInt (i : Int) : JsNumber := fin i 0

/-- The canonical form of `n / 2 ^ k`. -/
def dyadic (n : Int) (k : Nat) : JsNumber :=
  let g := Nat.gcd n.natAbs (2 ^ k)
  fin (n / (g : Int)) (k - log2Fuel g g)

/-- The comparison `a === b` on numbers: NaN differs from everything. -/
def strictEq (a b : JsNumber) : Bool :=
  match a, b with
  | nan, _ => false
  | _, nan => false
  | a, b => decide (a = b)

/-- The sum `value + i` for an integer `i`, computed exactly. -/
def addInt (value : JsNumber) (i : Int) : JsNumber :=
  match value with
  | fin n e => fin (n + i * 2 ^ e) e
  | other => other

/-- The operation `ToInt32` on a number: NaN and the infinities give 0, a finite value is truncated
towards zero and wrapped. -/
def toInt32 (value : JsNumber) : Int :=
  match value with
  | fin n e => Jsonr.toInt32 (Int.tdiv n (2 ^ e))
  | _ => 0

end JsNumber

/-- The quotient `a / 2 ^ k` rounded to the nearest integer, ties to even. -/
def roundHalfEven (a k : Nat) : Nat :=
  let q := a / 2 ^ k
  let r := a % 2 ^ k
  if 2 * r > 2 ^ k ∨ (2 * r = 2 ^ k ∧ q % 2 = 1) then q + 1 else q

/-- The IEEE-754 binary64 bit pattern of a number (round to nearest, ties to even), as
stored by `DataView.prototype.setFloat64`. -/
def float64Bits : JsNumber → Nat
  | .nan => 0x7FF8000000000000
  | .posInf => 0x7FF0000000000000
  | .negInf => 0xFFF0000000000000
  | .fin n e =>
    if n = 0 then 0
    else
      let a := n.natAbs
      let sign := if n < 0 then 2 ^ 63 else 0
      -- floor (log2 (a / 2 ^ e)), clamped below at the smallest normal exponent
      let ex : Int := max ((log2Fuel a a : Int) - e) (-1022)
      -- significand scaled to an integer: a / 2 ^ e * 2 ^ (52 - ex)
      let shift : Int := 52 - ex - e
      let m := if 0 ≤ shift then a * 2 ^ shift.toNat else roundHalfEven a (-shift).toNat
      sign + min (((ex + 1022).toNat) * 2 ^ 52 + m) (2047 * 2 ^ 52)

/-- Big-endian bytes of a 64-bit pattern. -/
def uint64Bytes (u : Nat) : List Nat :=
  [u / 2 ^ 56 % 256, u / 2 ^ 48 % 256, u / 2 ^ 40 % 256, u / 2 ^ 32 % 256,
   u / 2 ^ 24 % 256, u / 2 ^ 16 % 256, u / 2 ^ 8 % 256, u % 256]

/-- The eight bytes `setFloat64` stores for a number. -/
def float64Bytes (value : JsNumber) : List Nat := uint64Bytes (float64Bits value)

/-- The number with a given binary64 bit pattern (`getFloat64`). -/
def float64OfBits (b : Nat) : JsNumber :=
  let negative := b / 2 ^ 63 % 2 = 1
  let e := b / 2 ^ 52 % 2048
  let m := b % 2 ^ 52
  let signed (x : Nat) : Int := if negative then -(x : Int) else (x : Int)
  if e = 2047 then
    if m = 0 then (if negative then .negInf else .posInf) else .nan
  else if e = 0 then .dyadic (signed m) 1074
  else if 1075 ≤ e then .fin (signed ((2 ^ 52 + m) * 2 ^ (e - 1075))) 0
  else .dyadic (signed (2 ^ 52 + m)) (1075 - e)

/-- The number with a given binary32 bit pattern (`getFloat32`). -/
def float32OfBits (b : Nat) : JsNumber :=
  let negative := b / 2 ^ 31 % 2 = 1
  let e := b / 2 ^ 23 % 256
  let m := b % 2 ^ 23
  let signed (x : Nat) : Int := if negative then -(x : Int) else (x : Int)
  if e = 255 then
    if m = 0 then (if negative then .negInf else .posInf) else .nan
  else if e = 0 then .dyadic (signed m) 149
  else if 150 ≤ e then .fin (signed ((2 ^ 23 + m) * 2 ^ (e - 150))) 0
  else .dyadic (signed (2 ^ 23 + m)) (150 - e)

/-! ## Strings: UTF-16 length, `TextEncoder`, `TextDecoder` -/

/-- The property `value.length` of a string: its number of UTF-16 code units. -/
def utf16Length (s : String) : Nat :=
  (s.data.map fun c => if c.toNat < 65536 then 1 else 2).sum

/-- UTF-8 bytes of one scalar value. -/
def utf8EncodeChar (c : Char) : List Nat :=
  let n := c.toNat
  if n < 128 then [n]
  else if n < 2048 then [192 + n / 64, 128 + n % 64]
  else if n < 65536 then [224 + n / 4096, 128 + n / 64 % 64, 128 + n % 64]
  else [240 + n / 262144, 128 + n / 4096 % 64, 128 + n / 64 % 64, 128 + n % 64]

/-- The bytes `new TextEncoder().encode(value)` returns. -/
def textEncode (value : String) : List Nat :=
  (value.data.map utf8EncodeChar).flatten

/-- State of the WHATWG UTF-8 decoder between bytes. -/
structure Utf8State where
  codePoint : Nat := 0
  bytesSeen : Nat := 0
  bytesNeeded : Nat := 0
  lower : Nat := 128
  upper : Nat := 191

/-- The replacement character U+FFFD. -/
def replacementChar : Char := Char.ofNat 65533

/-- The WHATWG UTF-8 decoder handler on a byte when no sequence is in progress: the
characters emitted and the next state. -/
def utf8Lead (b : Nat) : List Char × Utf8State :=
  if b ≤ 127 then ([Char.ofNat b], {})
  else if 194 ≤ b ∧ b ≤ 223 then ([], { codePoint := b % 32, bytesNeeded := 1 })
  else if 224 ≤ b ∧ b ≤ 239 then
    ([], { codePoint := b % 16, bytesNeeded := 2,
           lower := if b = 224 then 160 else 128, upper := if b = 237 then 159 else 191 })
  else if 240 ≤ b ∧ b ≤ 244 then
    ([], { codePoint := b % 8, bytesNeeded := 3,
           lower := if b = 240 then 144 else 128, upper := if b = 244 then 143 else 191 })
  else ([replacementChar], {})

/-- The WHATWG UTF-8 decoder handler on one byte. A byte that cannot continue the sequence
in progress yields U+FFFD and is then handled again from the initial state. -/
def utf8Step (st : Utf8State) (b : Nat) : List Char × Utf8State :=
  if st.bytesNeeded = 0 then utf8Lead b
  else if b < st.lower ∨ st.upper < b then
    let r := utf8Lead b
    (replacementChar :: r.1, r.2)
  else
    let cp := st.codePoint * 64 + b % 64
    if st.bytesSeen + 1 = st.bytesNeeded then ([Char.ofNat cp], {})
    else ([], { codePoint := cp, bytesSeen := st.bytesSeen + 1, bytesNeeded := st.bytesNeeded })

/-- The WHATWG UTF-8 decoder run over a byte sequence; an unfinished sequence at the end
yields U+FFFD. -/
def utf8Decode : Utf8State → List Nat → List Char
  | st, [] => if st.bytesNeeded = 0 then [] else [replacementChar]
  | st, b :: bs =>
    let r := utf8Step st b
    r.1 ++ utf8Decode r.2 bs

/-- The string `new TextDecoder('utf-8').decode(view)` returns for the bytes of `view`:
the decoder is created with `ignoreBOM` false, so one leading U+FEFF is dropped. -/
def textDecode (bytes : List Nat) : String :=
  match utf8Decode {} bytes with
  | c :: cs => if c.toNat = 65279 then String.mk cs else String.mk (c :: cs)
  | [] => ""

/-! ## Values -/

/-- The value trees the codec handles. An object is the list of its own enumerable
properties in iteration order (`Object.keys`); a JavaScript object has pairwise distinct
keys. -/
inductive Value
  | null
  | bool (b : Bool)
  | number (n : JsNumber)
  | string (s : String)
  | array (xs : List Value)
  | object (fields : List (String × Value))

namespace Value

mutual
/-- Structural equality of value trees, as a boolean. -/
def beq : Value → Value → Bool
  | .null, .null => true
  | .bool a, .bool b => a == b
  | .number a, .number b => a == b
  | .string a, .string b => a == b
  | .array xs, .array ys => beqList xs ys
  | .object xs, .object ys => beqFields xs ys
  | _, _ => false
/-- Structural equality of lists of values. -/
def beqList : List Value → List Value → Bool
  | [], [] => true
  | x :: xs, y :: ys => beq x y && beqList xs ys
  | _, _ => false
/-- Structural equality of property lists. -/
def beqFields : List (String × Value) → List (String × Value) → Bool
  | [], [] => true
  | (k, x) :: xs, (l, y) :: ys => k == l && beq x y && beqFields xs ys
  | _, _ => false
end

mutual
theorem eq_of_beq : ∀ (a b : Value), beq a b = true → a = b
  | .null, b, h => by cases b <;> simp_all [beq]
  | .bool a, b, h => by cases b <;> simp_all [beq]
  | .number a, b, h => by cases b <;> simp_all [beq]
  | .string a, b, h => by cases b <;> simp_all [beq]
  | .array xs, b, h => by
    cases b <;> simp [beq] at h
    rename_i ys
    rw [eqList_of_beq xs ys h]
  | .object xs, b, h => by
    cases b <;> simp [beq] at h
    rename_i ys
    rw [eqFields_of_beq xs ys h]
theorem eqList_of_beq : ∀ (a b : List Value), beqList a b = true → a = b
  | [], b, h => by cases b <;> simp_all [beqList]
  | x :: xs, b, h => by
    cases b with
    | nil => simp [beqList] at h
    | cons y ys =>
      simp [beqList] at h
      rw [eq_of_beq x y h.1, eqList_of_beq xs ys h.2]
theorem eqFields_of_beq : ∀ (a b : List (String × Value)), beqFields a b = true → a = b
  | [], b, h => by cases b <;> simp_all [beqFields]
  | (k, x) :: xs, b, h => by
    cases b with
    | nil => simp [beqFields] at h
    | cons y ys =>
      obtain ⟨l, y⟩ := y
      simp [beqFields] at h
      rw [h.1.1, eq_of_beq x y h.1.2, eqFields_of_beq xs ys h.2]
end

mutual
theorem beq_self : ∀ (a : Value), beq a a = true
  | .null => by simp [beq]
  | .bool a => by simp [beq]
  | .number a => by simp [beq]
  | .string a => by simp [beq]
  | .array xs => by simp [beq, beqList_self xs]
  | .object xs => by simp [beq, beqFields_self xs]
theorem beqList_self : ∀ (a : List Value), beqList a a = true
  | [] => by simp [beqList]
  | x :: xs => by simp [beqList, beq_self x, beqList_self xs]
theorem beqFields_self : ∀ (a : List (String × Value)), beqFields a a = true
  | [] => by simp [beqFields]
  | (k, x) :: xs => by simp [beqFields, beq_self x, beqFields_self xs]
end

instance : DecidableEq Value := fun a b =>
  if h : beq a b = true then isTrue (eq_of_beq a b h)
  else isFalse (fun e => h (e ▸ beq_self a))

end Value

/-! ## Objects used as maps -/

/-- The own properties of a `{}` object whose values are numbers. -/
abbrev JsMap := String → Option Nat

namespace JsMap

/-- The object literal `{}`. -/
def empty : JsMap := fun _ => none

/-- The test `Object.prototype.hasOwnProperty.call(m, key)`. -/
def hasOwnProperty (m : JsMap) (key : String) : Bool := (m key).isSome

/-- The assignment `m[key] = v` for a number `v`: the key `__proto__` reaches the setter
of `Object.prototype`, which ignores a value that is neither an object nor null. -/
def set (m : JsMap) (key : String) (v : Nat) : JsMap :=
  if key = "__proto__" then m else fun x => if x = key then some v else m x

/-- The statement `delete m[key]`. -/
def delete (m : JsMap) (key : String) : JsMap :=
  fun x => if x = key then none else m x

end JsMap

/-- The property key an array element converts to when it indexes an object
(`undefined`, the content of a hole, becomes the key "undefined"). -/
def propertyKey : Option String → String
  | some s => s
  | none => "undefined"

/-! ## Buffers and views -/

/-- An `ArrayBuffer` of `byteLength` bytes: `bytes` is its leading content and every
byte beyond it is zero. -/
structure ArrayBuffer where
  bytes : List Nat
  byteLength : Nat
  deriving DecidableEq, Repr

/-- The byte at index `i` of a buffer (for `i < byteLength`). -/
def ArrayBuffer.byteAt (b : ArrayBuffer) (i : Nat) : Nat := b.bytes.getD i 0

/-- The bytes at `[start, start + length)` of a buffer. -/
def ArrayBuffer.slice (b : ArrayBuffer) (start length : Nat) : List Nat :=
  (List.range length).map fun i => b.byteAt (start + i)

/-- A `DataView`: a window of `byteLength` bytes at `byteOffset` of a buffer. -/
structure DataView where
  buffer : ArrayBuffer
  byteOffset : Nat
  byteLength : Nat
  deriving DecidableEq, Repr

/-- The view `new DataView(new Uint8Array(bytes).buffer)` over exactly `bytes`. -/
def DataView.ofBytes (bytes : List Nat) : DataView :=
  { buffer := { bytes := bytes, byteLength := bytes.length }, byteOffset := 0,
    byteLength := bytes.length }

/-- The bytes a view shows. -/
def DataView.toBytes (v : DataView) : List Nat := v.buffer.slice v.byteOffset v.byteLength

/-! ## Encoder -/

/-- What the encoder throws. -/
inductive EncoderError
  /-- The string 'Static dictionary exceeds maximum length (2048)'. -/
  | staticDictionaryTooLong
  /-- The string 'Length exceeds what can be stored in a 48 bit value: ' + length. -/
  | lengthExceeds48Bits (length : Nat)
  /-- The `RangeError` of a write outside the buffer. -/
  | rangeError
  deriving DecidableEq, Repr

/-- The fields of an `Encoder` instance. `bytes` is `_bytes[0 .. _offset)`, `capacity`
is `_bytes.length`; `_dynamicDictionary` is a sparse array (`none` is a hole). -/
structure Encoder where
  staticDictionary : List String
  dynamicDictionary : Nat → Option String
  dynamicPositions : JsMap
  dynamicInserted : Nat
  bytes : List Nat
  capacity : Nat
  staticPositions : JsMap

namespace Encoder

/-- The field `_offset`. -/
def offset (e : Encoder) : Nat := e.bytes.length

/-- The loop of the constructor filling `_staticPositions`, from index `i` on. -/
def fillStaticPositions : List String → Nat → JsMap → JsMap
  | [], _, m => m
  | s :: rest, i, m => fillStaticPositions rest (i + 1) (m.set s i)

/-- The fields the constructor initialises. -/
def fresh (staticDictionary : List String) : Encoder :=
  { staticDictionary := staticDictionary
    dynamicDictionary := fun _ => none
    dynamicPositions := JsMap.empty
    dynamicInserted := 0
    bytes := []
    capacity := 64 * 1024 * 1024
    staticPositions := fillStaticPositions staticDictionary 0 JsMap.empty }

/-- The constructor `new Encoder({staticDictionary})`; an absent dictionary is `[]`. -/
def new (staticDictionary : List String) : Except EncoderError Encoder :=
  if staticDictionary.length > 2048 then .error .staticDictionaryTooLong
  else .ok (fresh staticDictionary)

/-- The method `_extendBuffer(capacity)`: one doubling when the requested capacity exceeds
the buffer. -/
def _extendBuffer (e : Encoder) (capacity : Nat) : Encoder :=
  if capacity ≤ e.capacity then e else { e with capacity := 2 * e.capacity }

/-- A write of `bs` at `_offset` followed by `_offset += bs.length`; a `RangeError` when
the bytes do not fit in the buffer. -/
def write (e : Encoder) (bs : List Nat) : Except EncoderError Encoder :=
  if e.offset + bs.length ≤ e.capacity then .ok { e with bytes := e.bytes ++ bs }
  else .error .rangeError

/-- The pair `_dataView.setUint8(_offset, v); _offset += 1`. -/
def setUint8 (e : Encoder) (v : Int) : Except EncoderError Encoder :=
  e.write [(v % 256).toNat]

/-- The pair `_dataView.setUint16(_offset, v); _offset += 2`. -/
def setUint16 (e : Encoder) (v : Int) : Except EncoderError Encoder :=
  e.write (uint16Bytes v)

/-- The pair `_dataView.setUint32(_offset, v); _offset += 4`. -/
def setUint32 (e : Encoder) (v : Int) : Except EncoderError Encoder :=
  e.write (uint32Bytes v)

/-- The pair `_dataView.setFloat64(_offset, value); _offset += 8`. -/
def setFloat64 (e : Encoder) (value : JsNumber) : Except EncoderError Encoder :=
  e.write (float64Bytes value)

/-- The method `_encodeBoolean`. -/
def _encodeBoolean (e : Encoder) (value : Bool) : Except EncoderError Encoder :=
  (e._extendBuffer (e.offset + 1)).setUint8 (if value then 254 else 253)

/-- The method `_encodeNull`. -/
def _encodeNull (e : Encoder) : Except EncoderError Encoder :=
  (e._extendBuffer (e.offset + 1)).setUint8 252

/-- The condition of `_encodeNumber`, `value === value & 0b01_1111`, which JavaScript
parses as `(value === value) & 0b01_1111`: the comparison result is converted to 1 or 0
and masked. -/
def encodeNumberTest (value : JsNumber) : Int :=
  jsAnd (if value.strictEq value then 1 else 0) 31

/-- The method `_encodeNumber`. -/
def _encodeNumber (e : Encoder) (value : JsNumber) : Except EncoderError Encoder :=
  if encodeNumberTest value ≠ 0 then
    (e._extendBuffer (e.offset + 1)).setUint8 (jsOr 128 (value.addInt 16).toInt32)
  else do
    let e ← (e._extendBuffer (e.offset + 9)).setUint8 250
    e.setFloat64 value

/-- The method `_writeKindAndLength(kind, length)`. -/
def _writeKindAndLength (e : Encoder) (kind length : Nat) : Except EncoderError Encoder :=
  if length ≤ 7 then
    (e._extendBuffer (e.offset + 1)).setUint8 (208 + jsShl kind 3 + length)
  else if length ≤ 65535 then do
    let e ← (e._extendBuffer (e.offset + 3)).setUint8 (240 + kind)
    e.setUint16 length
  else if length ≤ 281474976710655 then do
    let e ← (e._extendBuffer (e.offset + 7)).setUint8 (244 + kind)
    let e ← e.setUint16 (jsUShr length 32)
    e.setUint32 (jsAnd length 4294967295)
  else .error (.lengthExceeds48Bits length)

/-- The update of the dynamic dictionary at the end of `_encodeString`, for a literal of at
most 128 bytes: store at slot `i`, record the position, advance, and drop the reverse
entry of the string in the slot the next insertion will use. -/
def insertDynamic (e : Encoder) (value : String) : Encoder :=
  let i := (jsAnd e.dynamicInserted 127).toNat
  let e := { e with
    dynamicDictionary := fun x => if x = i then some value else e.dynamicDictionary x
    dynamicPositions := e.dynamicPositions.set value i
    dynamicInserted := e.dynamicInserted + 1 }
  let j := (jsAnd e.dynamicInserted 127).toNat
  let k := propertyKey (e.dynamicDictionary j)
  if e.dynamicPositions k = some j then
    { e with dynamicPositions := e.dynamicPositions.delete k }
  else e

/-- The method `_encodeString`. -/
def _encodeString (e : Encoder) (value : String) : Except EncoderError Encoder :=
  if utf16Length value = 0 then e._writeKindAndLength 2 0
  else if e.dynamicPositions.hasOwnProperty value then
    (e._extendBuffer 1).setUint8 ((e.dynamicPositions value).getD 0)
  else if e.staticPositions.hasOwnProperty value then
    (e._extendBuffer 2).setUint16 (jsOr 49152 ((e.staticPositions value).getD 0))
  else do
    let utf8 := textEncode value
    let e ← e._writeKindAndLength 2 utf8.length
    let e ← (e._extendBuffer (e.offset + utf8.length)).write utf8
    if utf8.length > 128 then pure e
    else pure (e.insertDynamic value)

mutual
/-- The method `_encodeValue`, with `_encodeArray` and `_encodeObject` inlined up to
their loops. -/
def _encodeValue (e : Encoder) : Value → Except EncoderError Encoder
  | .number n => e._encodeNumber n
  | .string s => e._encodeString s
  | .bool b => e._encodeBoolean b
  | .null => e._encodeNull
  | .array xs => do
    let e ← e._writeKindAndLength 0 xs.length
    encodeElements e xs
  | .object fields => do
    let e ← e._writeKindAndLength 1 fields.length
    encodeFields e fields
/-- The loop of `_encodeArray`. -/
def encodeElements (e : Encoder) : List Value → Except EncoderError Encoder
  | [] => pure e
  | x :: xs => do
    let e ← e._encodeValue x
    encodeElements e xs
/-- The loop of `_encodeObject`: `_encodeValue(k)` on a key is `_encodeString(k)`. -/
def encodeFields (e : Encoder) : List (String × Value) → Except EncoderError Encoder
  | [] => pure e
  | (k, v) :: rest => do
    let e ← e._encodeString k
    let e ← e._encodeValue v
    encodeFields e rest
end

/-- The eight header bytes `encodeValue` stores at offsets 0 to 7. -/
def header (e : Encoder) : List Nat :=
  [211, 74, 82, 98, 1, 0] ++ uint16Bytes e.staticDictionary.length

/-- The body of the method `encodeValue` up to its `return`: the header is stored at the
start of the buffer, `_offset` advances by 8 and the value is encoded. -/
def encodeValueState (e : Encoder) (value : Value) : Except EncoderError Encoder :=
  if e.capacity < 8 then .error .rangeError
  else
    let e := { e with bytes := e.header ++ (e.bytes ++ List.replicate 8 0).drop 8 }
    e._encodeValue value

/-- The method `encodeValue`: after the body, a view of the first `_offset` bytes of the
buffer is returned (`new DataView(buffer, 0, _offset)`). -/
def encodeValue (e : Encoder) (value : Value) : Except EncoderError DataView := do
  let e ← e.encodeValueState value
  if e.capacity < e.offset then .error .rangeError
  else
    pure { buffer := { bytes := e.bytes, byteLength := e.capacity }, byteOffset := 0,
           byteLength := e.offset }

/-- The function `Encoder.encode(value, {staticDictionary})`. -/
def encode (value : Value) (staticDictionary : List String) : Except EncoderError DataView := do
  let e ← Encoder.new staticDictionary
  e.encodeValue value

end Encoder

/-! ## The reverse-map invariant of the encoder -/

namespace Encoder

/-- The invariant of the reverse map `_dynamicPositions`: a string recorded at slot `p` is
the content of slot `p` of `_dynamicDictionary`, and `p` is not the slot the next
insertion writes, `_dynamicInserted & 127`. -/
def ReverseMapInv (e : Encoder) : Prop :=
  ∀ (s : String) (p : Nat), e.dynamicPositions s = some p →
    e.dynamicDictionary p = some s ∧ p ≠ e.dynamicInserted % 128

/-- The three dictionary fields of the encoder are the same in both states. -/
def SameDictionary (e e' : Encoder) : Prop :=
  e'.dynamicDictionary = e.dynamicDictionary ∧ e'.dynamicPositions = e.dynamicPositions ∧
    e'.dynamicInserted = e.dynamicInserted

/-- The buffer bounds of a step: the buffer did not shrink and the offset lies within it. -/
def Grows (e e' : Encoder) : Prop :=
  e.capacity ≤ e'.capacity ∧ e'.offset ≤ e'.capacity

/-- The states an encoder goes through: the state the constructor builds, and the state
after any successful call of a method that writes. Every intermediate state of
`encodeValue` is of this kind. -/
inductive Reachable : Encoder → Prop
  | fresh (staticDictionary : List String) : Reachable (fresh staticDictionary)
  | header {e e' : Encoder} (value : Value) :
      Reachable e → e.encodeValueState value = .ok e' → Reachable e'
  | encodeValue {e e' : Encoder} (value : Value) :
      Reachable e → e._encodeValue value = .ok e' → Reachable e'
  | encodeString {e e' : Encoder} (value : String) :
      Reachable e → e._encodeString value = .ok e' → Reachable e'
  | encodeNumber {e e' : Encoder} (value : JsNumber) :
      Reachable e → e._encodeNumber value = .ok e' → Reachable e'
  | encodeBoolean {e e' : Encoder} (value : Bool) :
      Reachable e → e._encodeBoolean value = .ok e' → Reachable e'
  | encodeNull {e e' : Encoder} :
      Reachable e → e._encodeNull = .ok e' → Reachable e'
  | writeKindAndLength {e e' : Encoder} (kind length : Nat) :
      Reachable e → e._writeKindAndLength kind length = .ok e' → Reachable e'

end Encoder

/-! ## Decoder -/

/-- What the decoder throws, and the exhaustion of the fuel of the model. -/
inductive DecoderFailure
  /-- A `DecoderError` with its `offset` field. -/
  | decoderError (offset : Nat)
  /-- The `RangeError` of a read outside the view, of `new DataView` outside the buffer
  or of `new Array` with an invalid length. -/
  | rangeError
  /-- The `ReferenceError` of evaluating an undeclared identifier. -/
  | referenceError
  /-- Not a JavaScript outcome: the fuel given to the model ran out. -/
  | outOfFuel
  deriving DecidableEq, Repr

/-- The method `DataView.prototype.getUint8`. -/
def DataView.getUint8 (v : DataView) (i : Nat) : Except DecoderFailure Nat :=
  if i + 1 ≤ v.byteLength then .ok (v.buffer.byteAt (v.byteOffset + i))
  else .error .rangeError

/-- The method `DataView.prototype.getUint16` (big-endian). -/
def DataView.getUint16 (v : DataView) (i : Nat) : Except DecoderFailure Nat :=
  if i + 2 ≤ v.byteLength then
    .ok (v.buffer.byteAt (v.byteOffset + i) * 256 + v.buffer.byteAt (v.byteOffset + i + 1))
  else .error .rangeError

/-- The method `DataView.prototype.getUint32` (big-endian). -/
def DataView.getUint32 (v : DataView) (i : Nat) : Except DecoderFailure Nat :=
  if i + 4 ≤ v.byteLength then
    .ok (v.buffer.byteAt (v.byteOffset + i) * 16777216
      + v.buffer.byteAt (v.byteOffset + i + 1) * 65536
      + v.buffer.byteAt (v.byteOffset + i + 2) * 256
      + v.buffer.byteAt (v.byteOffset + i + 3))
  else .error .rangeError

/-- The eight bytes at `i` of a view as one big-endian 64-bit pattern. -/
def DataView.getUint64 (v : DataView) (i : Nat) : Except DecoderFailure Nat := do
  let hi ← v.getUint32 i
  let lo ← v.getUint32 (i + 4)
  pure (hi * 4294967296 + lo)

/-- The constructor `new DataView(buffer, byteOffset, byteLength)` followed by reading the
bytes of the new view: a `RangeError` for a negative length or a window that leaves the
buffer. -/
def ArrayBuffer.view (b : ArrayBuffer) (byteOffset : Nat) (byteLength : Int) :
    Except DecoderFailure (List Nat) :=
  if byteLength < 0 then .error .rangeError
  else if b.byteLength < byteOffset + byteLength.toNat then .error .rangeError
  else .ok (b.slice byteOffset byteLength.toNat)

/-- The own properties of the object built by `_decodeObject` after `result[f] = v`: an
existing key keeps its place, a new key is appended, and the key `__proto__` reaches the
setter of `Object.prototype`, which adds no own property. -/
def objectSet (fields : List (String × Value)) (f : String) (v : Value) :
    List (String × Value) :=
  if f = "__proto__" then fields
  else if fields.any (fun p => p.1 = f) then
    fields.map fun p => if p.1 = f then (f, v) else p
  else fields ++ [(f, v)]

/-- The string `btoa(v)` for a `DataView` `v`: `btoa` converts its argument to the string
"[object DataView]" and encodes that. -/
def btoaOfDataView : String := "W29iamVjdCBEYXRhVmlld10="

/-- The fields of a `Decoder` instance; `_dynamicDictionary` has 128 slots. -/
structure Decoder where
  dataView : DataView
  offset : Nat
  staticDictionary : List String
  dynamicDictionary : Nat → String
  dynamicDictionaryOffset : Nat

namespace Decoder

/-- The method `_byte(extraOffset)`. -/
def _byte (d : Decoder) (extraOffset : Nat) : Except DecoderFailure Nat :=
  d.dataView.getUint8 (d.offset + extraOffset)

/-- One comparison of the header checks of the constructor: the byte at `_offset +
extraOffset` is read and, when it differs from `expected`, a `DecoderError` is thrown
with the current `_offset`. -/
def expectByte (d : Decoder) (extraOffset expected : Nat) : Except DecoderFailure Unit := do
  let b ← d._byte extraOffset
  if b ≠ expected then throw (.decoderError d.offset) else pure ()

/-- The constructor `new Decoder(dataView, {staticDictionary})`; an absent dictionary is
`[]`. The four magic bytes are compared in turn (the `||` of the code short-circuits).
When the declared size exceeds 2048 the argument `offset` of `new DecoderError(offset,
...)` is an undeclared identifier, whose evaluation throws a `ReferenceError`. -/
def new (dataView : DataView) (staticDictionary : List String) :
    Except DecoderFailure Decoder := do
  let d : Decoder :=
    { dataView := dataView, offset := 0, staticDictionary := staticDictionary,
      dynamicDictionary := fun _ => "", dynamicDictionaryOffset := 0 }
  d.expectByte 0 211
  d.expectByte 1 74
  d.expectByte 2 82
  d.expectByte 3 98
  let d := { d with offset := d.offset + 4 }
  d.expectByte 0 1
  let d := { d with offset := d.offset + 1 }
  d.expectByte 0 0
  let d := { d with offset := d.offset + 1 }
  let staticDictionarySize ← d.dataView.getUint16 d.offset
  if staticDictionarySize > 2048 then throw .referenceError
  else if staticDictionarySize > d.staticDictionary.length then
    throw (.decoderError d.offset)
  else
    pure { d with
      staticDictionary := d.staticDictionary.take staticDictionarySize
      offset := d.offset + 2 }

/-- The length `(i << 32) | j` that `decodeValue` computes for the tags 0xF4 to 0xF7 from
the uint16 `i` and the uint32 `j`. -/
def length48 (i j : Nat) : Int := jsOr (jsShl i 32) j

/-- The method `_decodeString(length)`. The view is taken at `_offset` of the underlying
buffer; the decoded string enters the dynamic dictionary when its `length` (in UTF-16
code units) is between 1 and 128. -/
def _decodeString (d : Decoder) (length : Int) : Except DecoderFailure (Value × Decoder) := do
  let bytes ← d.dataView.buffer.view d.offset length
  let v := textDecode bytes
  let d := { d with offset := d.offset + length.toNat }
  if 0 < utf16Length v ∧ utf16Length v ≤ 128 then
    pure (.string v, { d with
      dynamicDictionary := fun x => if x = d.dynamicDictionaryOffset then v
        else d.dynamicDictionary x
      dynamicDictionaryOffset := (jsAnd (d.dynamicDictionaryOffset + 1) 127).toNat })
  else pure (.string v, d)

mutual
/-- The method `decodeValue`. -/
def decodeValue : Nat → Decoder → Except DecoderFailure (Value × Decoder)
  | 0, _ => .error .outOfFuel
  | fuel + 1, d => do
    let b ← d._byte 0
    let d := { d with offset := d.offset + 1 }
    if b ≤ 127 then pure (.string (d.dynamicDictionary b), d)
    else if b ≤ 191 then pure (.number (.fin ((b : Int) - 128 - 16) 0), d)
    else if b ≤ 239 then
      let i := jsAnd b 7
      match jsUShr b 3 with
      | 24 => do
        let j := jsOr (jsShl i 8) (← d._byte 0)
        let d := { d with offset := d.offset + 1 }
        pure (.string ((d.staticDictionary.get? j.toNat).getD ""), d)
      | 25 => do
        let j := jsOr (jsShl i 8) (← d._byte 0)
        let d := { d with offset := d.offset + 1 }
        pure (.number (.fin (j + 1008) 0), d)
      | 26 => _decodeArray fuel d i
      | 27 => _decodeObject fuel d i
      | 28 => d._decodeString i
      | 29 => _decodeData fuel d i
      -- no case of the `switch` matches (impossible for 192 ≤ b ≤ 239)
      | _ => .error .outOfFuel
    else if b ≤ 243 then do
      let i ← d.dataView.getUint16 d.offset
      let d := { d with offset := d.offset + 2 }
      if b = 240 then _decodeArray fuel d i
      else if b = 241 then _decodeObject fuel d i
      else if b = 242 then d._decodeString i
      else _decodeData fuel d i
    else if b ≤ 247 then do
      let i ← d.dataView.getUint16 d.offset
      let d := { d with offset := d.offset + 2 }
      let j ← d.dataView.getUint32 d.offset
      let d := { d with offset := d.offset + 4 }
      let k := length48 i j
      if b = 244 then _decodeArray fuel d k
      else if b = 245 then _decodeObject fuel d k
      else if b = 246 then d._decodeString k
      else _decodeData fuel d k
    else if b = 248 then do
      let i ← d.dataView.getUint32 d.offset
      pure (.number (.fin (toInt32 i) 0), { d with offset := d.offset + 4 })
    else if b = 249 then do
      let i ← d.dataView.getUint32 d.offset
      pure (.number (float32OfBits i), { d with offset := d.offset + 4 })
    else if b = 250 then do
      let i ← d.dataView.getUint64 d.offset
      pure (.number (float64OfBits i), { d with offset := d.offset + 8 })
    else if b = 251 then .error (.decoderError (d.offset - 1))
    else if b = 252 then pure (.null, d)
    else if b = 253 then pure (.bool false, d)
    else if b = 254 then pure (.bool true, d)
    else .error (.decoderError (d.offset - 1))
/-- The method `_decodeArray(length)`: `new Array(length)` throws a `RangeError` unless
`0 ≤ length < 2 ^ 32`. -/
def _decodeArray : Nat → Decoder → Int → Except DecoderFailure (Value × Decoder)
  | 0, _, _ => .error .outOfFuel
  | fuel + 1, d, length =>
    if length < 0 ∨ 4294967296 ≤ length then .error .rangeError
    else do
      let r ← decodeElements fuel d length.toNat
      pure (.array r.1, r.2)
/-- The loop of `_decodeArray`, with `count` elements left. -/
def decodeElements : Nat → Decoder → Nat → Except DecoderFailure (List Value × Decoder)
  | _, d, 0 => pure ([], d)
  | 0, _, _ + 1 => .error .outOfFuel
  | fuel + 1, d, count + 1 => do
    let r ← decodeValue fuel d
    let rest ← decodeElements fuel r.2 count
    pure (r.1 :: rest.1, rest.2)
/-- The method `_decodeObject(length)`: a negative length gives no iteration. -/
def _decodeObject : Nat → Decoder → Int → Except DecoderFailure (Value × Decoder)
  | 0, _, _ => .error .outOfFuel
  | fuel + 1, d, length => do
    let r ← decodeFields fuel d length.toNat []
    pure (.object r.1, r.2)
/-- The loop of `_decodeObject`, with `count` pairs left and `result` built so far. -/
def decodeFields : Nat → Decoder → Nat → List (String × Value) →
    Except DecoderFailure (List (String × Value) × Decoder)
  | _, d, 0, result => pure (result, d)
  | 0, _, _ + 1, _ => .error .outOfFuel
  | fuel + 1, d, count + 1, result => do
    let o := d.offset
    let f ← decodeValue fuel d
    match f.1 with
    | .string name => do
      let v ← decodeValue fuel f.2
      decodeFields fuel v.2 count (objectSet result name v.1)
    | _ => .error (.decoderError o)
/-- The method `_decodeData(length)`. -/
def _decodeData : Nat → Decoder → Int → Except DecoderFailure (Value × Decoder)
  | 0, _, _ => .error .outOfFuel
  | fuel + 1, d, length => do
    let o := d.offset
    let m ← decodeValue fuel d
    match m.1 with
    | .string mediaType => do
      let d := m.2
      let _ ← d.dataView.buffer.view d.offset length
      pure (.string ("data:" ++ mediaType ++ "," ++ btoaOfDataView),
        { d with offset := d.offset + length.toNat })
    | _ => .error (.decoderError o)
end

/-- The run of `Decoder.decode(dataView, {staticDictionary})`: construction, then one
`decodeValue`; the value together with the final state of the decoder. -/
def run (dataView : DataView) (staticDictionary : List String) :
    Except DecoderFailure (Value × Decoder) := do
  let d ← Decoder.new dataView staticDictionary
  d.decodeValue (3 * dataView.byteLength + 3)

/-- The function `Decoder.decode(dataView, {staticDictionary})`. -/
def decode (dataView : DataView) (staticDictionary : List String) :
    Except DecoderFailure Value := do
  let r ← run dataView staticDictionary
  pure r.1

end Decoder

/-! ## Progress of the decoder -/

/-- The bytes of the view from the offset of the decoder on. -/
def Decoder.remaining (d : Decoder) : Nat := d.dataView.byteLength - d.offset

/-- A result of the decoder that is no exhaustion of fuel and, when it is a value, comes
with a state over the same view whose offset advanced by at least `k`. -/
def Decoder.Advances {α : Type} (k : Nat) (d : Decoder)
    (x : Except DecoderFailure (α × Decoder)) : Prop :=
  x ≠ .error .outOfFuel ∧
    ∀ a d', x = .ok (a, d') → d.offset + k ≤ d'.offset ∧ d'.dataView = d.dataView

/-- The properties of the recursive functions of the decoder at fuel `n`: with three units
of fuel for every remaining byte no call runs out of fuel, and the offset only advances. -/
def Decoder.FuelSuffices (n : Nat) : Prop :=
  (∀ d : Decoder, 3 * d.remaining + 1 ≤ n → Decoder.Advances 1 d (d.decodeValue n)) ∧
  (∀ (d : Decoder) (count : Nat), 3 * d.remaining + 2 ≤ n ∨ count = 0 →
    Decoder.Advances 0 d (Decoder.decodeElements n d count)) ∧
  (∀ (d : Decoder) (count : Nat) (result : List (String × Value)),
    3 * d.remaining + 2 ≤ n ∨ count = 0 →
    Decoder.Advances 0 d (Decoder.decodeFields n d count result)) ∧
  (∀ (d : Decoder) (len : Int), 3 * d.remaining + 2 ≤ n →
    Decoder.Advances 0 d (Decoder._decodeData n d len)) ∧
  (∀ (d : Decoder) (len : Int), 3 * d.remaining + 3 ≤ n →
    Decoder.Advances 0 d (Decoder._decodeArray n d len)) ∧
  (∀ (d : Decoder) (len : Int), 3 * d.remaining + 3 ≤ n →
    Decoder.Advances 0 d (Decoder._decodeObject n d len))

/-- The outcomes of the constructor of the decoder: an exception of the code, or a decoder
over the given view at offset 8. -/
def Decoder.NewOutcome (view : DataView) (x : Except DecoderFailure Decoder) : Prop :=
  (∃ err, x = .error err ∧ err ≠ .outOfFuel) ∨
  (∃ d, x = .ok d ∧ d.dataView = view ∧ d.offset = 8)

/-- The composition `Decoder.decode(Encoder.encode(value, {staticDictionary}),
{staticDictionary})`, with the exception of whichever call throws. -/
def roundTrip (value : Value) (staticDictionary : List String) :
    Except (EncoderError ⊕ DecoderFailure) Value :=
  match Encoder.encode value staticDictionary with
  | .error err => .error (.inl err)
  | .ok view =>
    match Decoder.decode view staticDictionary with
    | .error err => .error (.inr err)
    | .ok v => .ok v

/-- The 64 characters of the standard base64 alphabet. -/
def base64Alphabet : List Char :=
  "ABCDEFGHIJKLMNOPQRSTUVWXYZabcdefghijklmnopqrstuvwxyz0123456789+/".toList

/-- The standard base64 encoding of a byte sequence, as the specification names it (the
code calls `btoa` instead): three bytes give four characters, and a last group of one or
two bytes is padded with `=`. -/
def specBase64 : List Nat → List Char
  | [] => []
  | [a] => [base64Alphabet.getD (a / 4) 'A', base64Alphabet.getD (a % 4 * 16) 'A', '=', '=']
  | [a, b] =>
    [base64Alphabet.getD (a / 4) 'A', base64Alphabet.getD (a % 4 * 16 + b / 16) 'A',
      base64Alphabet.getD (b % 16 * 4) 'A', '=']
  | a :: b :: c :: rest =>
    base64Alphabet.getD (a / 4) 'A' :: base64Alphabet.getD (a % 4 * 16 + b / 16) 'A' ::
      base64Alphabet.getD (b % 16 * 4 + c / 64) 'A' :: base64Alphabet.getD (c % 64) 'A' ::
      specBase64 rest

/-! ## A view and its extension -/

/-- The decoder state `d` placed over the view `v`. -/
def Decoder.withView (d : Decoder) (v : DataView) : Decoder := { d with dataView := v }

/-- The view `vl` extends the view `vs`: each covers the whole of its buffer from byte 0,
and the bytes of `vs` are the leading bytes of `vl`. -/
def DataView.Extends (vl vs : DataView) : Prop :=
  vs.byteOffset = 0 ∧ vl.byteOffset = 0 ∧
  vs.buffer.byteLength = vs.byteLength ∧ vl.buffer.byteLength = vl.byteLength ∧
  vs.byteLength ≤ vl.byteLength ∧
  ∀ i, i < vs.byteLength → vs.buffer.byteAt i = vl.buffer.byteAt i

/-- The outcome `y` of a step over the short view `vs` against the outcome `x` of the same
step over the long view `vl`: apart from an exhaustion of fuel, `y` is a `RangeError`, or
both are the same exception, or both are the same value with states that differ in the
view only, at an offset within the short view. -/
def Decoder.Truncates {α : Type} (vs vl : DataView)
    (y x : Except DecoderFailure (α × Decoder)) : Prop :=
  y = .error .outOfFuel ∨ x = .error .outOfFuel ∨ y = .error .rangeError ∨
  (∃ e, y = .error e ∧ x = .error e) ∨
  (∃ (a : α) (d : Decoder), y = .ok (a, d.withView vs) ∧ x = .ok (a, d.withView vl) ∧
    d.offset ≤ vs.byteLength)

/-- The relation `Decoder.Truncates` for the recursive functions of the decoder, with fuel
`n` over the long view and any fuel over the short one. -/
def Decoder.TruncatesAt (vs vl : DataView) (n : Nat) : Prop :=
  (∀ (m : Nat) (d : Decoder),
    Decoder.Truncates vs vl ((d.withView vs).decodeValue m) ((d.withView vl).decodeValue n)) ∧
  (∀ (m : Nat) (d : Decoder) (count : Nat), d.offset ≤ vs.byteLength →
    Decoder.Truncates vs vl (Decoder.decodeElements m (d.withView vs) count)
      (Decoder.decodeElements n (d.withView vl) count)) ∧
  (∀ (m : Nat) (d : Decoder) (count : Nat) (result : List (String × Value)),
    d.offset ≤ vs.byteLength →
    Decoder.Truncates vs vl (Decoder.decodeFields m (d.withView vs) count result)
      (Decoder.decodeFields n (d.withView vl) count result)) ∧
  (∀ (m : Nat) (d : Decoder) (len : Int), d.offset ≤ vs.byteLength →
    Decoder.Truncates vs vl (Decoder._decodeData m (d.withView vs) len)
      (Decoder._decodeData n (d.withView vl) len)) ∧
  (∀ (m : Nat) (d : Decoder) (len : Int), d.offset ≤ vs.byteLength →
    Decoder.Truncates vs vl (Decoder._decodeArray m (d.withView vs) len)
      (Decoder._decodeArray n (d.withView vl) len)) ∧
  (∀ (m : Nat) (d : Decoder) (len : Int), d.offset ≤ vs.byteLength →
    Decoder.Truncates vs vl (Decoder._decodeObject m (d.withView vs) len)
      (Decoder._decodeObject n (d.withView vl) len))

/-- The outcome `y` of the constructor over the short view `vs` against its outcome `x`
over the long view `vl`. -/
def Decoder.NewTruncates (vs vl : DataView) (y x : Except DecoderFailure Decoder) : Prop :=
  y = .error .rangeError ∨ (∃ e, y = .error e ∧ x = .error e) ∨
  (∃ d : Decoder, y = .ok (d.withView vs) ∧ x = .ok (d.withView vl) ∧
    d.offset ≤ vs.byteLength)

/-! ## Auxiliary lemmas -/

theorem jsAnd_127 (n : Nat) : (jsAnd (n : Int) 127).toNat = n % 128 := by
  unfold jsAnd toInt32 toUint32
  have h1 : ((n : Int) % 4294967296).toNat = n % 4294967296 := by omega
  have h2 : ((127 : Int) % 4294967296).toNat = 127 := by decide
  rw [h1, h2]
  have h3 : (n % 4294967296) &&& 127 = n % 128 := by
    have := Nat.and_pow_two_sub_one_eq_mod (n % 4294967296) 7
    simp at this
    rw [this]; omega
  simp only [h3]
  have h4 : (((n % 128 : Nat) : Int) % 4294967296).toNat = n % 128 := by omega
  rw [h4]
  split <;> omega

theorem inline_byte (v : Int) (h1 : -16 ≤ v) (h2 : v ≤ 47) :
    ((jsOr 128 ((JsNumber.fin v 0).addInt 16).toInt32) % 256).toNat
      = (128 + (v + 16)).toNat := by
  interval_cases v <;> decide

theorem Encoder.write_extend (e : Encoder) (n : Nat) (bs : List Nat) (hn : bs.length = n)
    (h3 : e.offset ≤ e.capacity) (h4 : n ≤ e.capacity) :
    (e._extendBuffer (e.offset + n)).write bs
      = .ok { e._extendBuffer (e.offset + n) with bytes := e.bytes ++ bs } := by
  unfold Encoder.write Encoder._extendBuffer Encoder.offset at *
  by_cases h : e.bytes.length + n ≤ e.capacity
  · simp only [h, if_true, hn]
  · simp only [h, if_false, hn]
    rw [if_pos (by omega)]

theorem Encoder.encodeNumber_inline (e : Encoder) (v : Int) (h1 : -16 ≤ v) (h2 : v ≤ 47)
    (h3 : e.offset ≤ e.capacity) (h4 : 0 < e.capacity) :
    e._encodeNumber (.fin v 0)
      = .ok { e._extendBuffer (e.offset + 1) with
              bytes := e.bytes ++ [(128 + (v + 16)).toNat] } := by
  have ht : Encoder.encodeNumberTest (.fin v 0) = 1 := by
    simp [Encoder.encodeNumberTest, JsNumber.strictEq]; decide
  simp only [Encoder._encodeNumber, ht, Encoder.setUint8, inline_byte v h1 h2]
  rw [Encoder.write_extend e 1 _ (by simp) h3 (by omega)]
  simp

theorem Decoder.decodeValue_inline (d : Decoder) (fuel b : Nat) (h1 : 128 ≤ b) (h2 : b ≤ 191)
    (h : d._byte 0 = .ok b) :
    d.decodeValue (fuel + 1)
      = .ok (.number (.fin ((b : Int) - 128 - 16) 0), { d with offset := d.offset + 1 }) := by
  rw [Decoder.decodeValue]
  simp only [h, bind, Except.bind]
  have : ¬ b ≤ 127 := by omega
  simp [this, h2, pure, Except.pure]

theorem Decoder.new_of_header (rest : List Nat) (cap len : Nat) (D : List String)
    (hD : D.length ≤ 2048) (hlen : 8 ≤ len) :
    Decoder.new
        { buffer := { bytes := [211, 74, 82, 98, 1, 0] ++ uint16Bytes D.length ++ rest,
                      byteLength := cap },
          byteOffset := 0, byteLength := len } D
      = .ok { dataView :=
                { buffer := { bytes := [211, 74, 82, 98, 1, 0] ++ uint16Bytes D.length ++ rest,
                              byteLength := cap },
                  byteOffset := 0, byteLength := len },
              offset := 8, staticDictionary := D, dynamicDictionary := fun _ => "",
              dynamicDictionaryOffset := 0 } := by
  have hu : uint16Bytes (D.length : Int) = [D.length / 256, D.length % 256] := by
    simp only [uint16Bytes]
    have : ((D.length : Int) % 65536).toNat = D.length := by omega
    rw [this]
  have h256 : D.length / 256 * 256 + D.length % 256 = D.length := by omega
  simp only [Decoder.new, Decoder.expectByte, Decoder._byte, DataView.getUint8,
    DataView.getUint16, ArrayBuffer.byteAt, hu, bind, Except.bind, pure, Except.pure]
  have e1 : (0 : Nat) + 0 + 1 ≤ len := by omega
  have e2 : (0 : Nat) + 1 + 1 ≤ len := by omega
  have e3 : (0 : Nat) + 2 + 1 ≤ len := by omega
  have e4 : (0 : Nat) + 3 + 1 ≤ len := by omega
  have e5 : (0 : Nat) + 4 + 0 + 1 ≤ len := by omega
  have e6 : (0 : Nat) + 4 + 1 + 0 + 1 ≤ len := by omega
  have e7 : (0 : Nat) + 4 + 1 + 1 + 2 ≤ len := by omega
  simp [e1, e2, e3, e4, e5, e6, e7, h256, hD, List.take_of_length_le]

theorem Encoder.encode_inline (v : Int) (h1 : -16 ≤ v) (h2 : v ≤ 47) (D : List String)
    (hD : D.length ≤ 2048) :
    Encoder.encode (.number (.fin v 0)) D
      = .ok { buffer :=
                { bytes := [211, 74, 82, 98, 1, 0] ++ uint16Bytes D.length
                    ++ [(128 + (v + 16)).toNat],
                  byteLength := 67108864 },
              byteOffset := 0, byteLength := 9 } := by
  have hnew : Encoder.new D = .ok (Encoder.fresh D) := by
    simp [Encoder.new]; omega
  simp only [Encoder.encode, hnew, bind, Except.bind, Encoder.encodeValue,
    Encoder.encodeValueState]
  have hcap : ¬ (Encoder.fresh D).capacity < 8 := by simp [Encoder.fresh]
  simp only [hcap, if_false, Encoder._encodeValue]
  rw [Encoder.encodeNumber_inline _ v h1 h2 (by simp [Encoder.offset, Encoder.fresh, Encoder.header, uint16Bytes])
    (by simp [Encoder.fresh])]
  simp [Encoder._extendBuffer, Encoder.offset, Encoder.fresh, Encoder.header, uint16Bytes,
    pure, Except.pure]

theorem roundTrip_inline (v : Int) (h1 : -16 ≤ v) (h2 : v ≤ 47) (D : List String)
    (hD : D.length ≤ 2048) :
    roundTrip (.number (.fin v 0)) D = .ok (.number (.fin v 0)) := by
  simp only [roundTrip, Encoder.encode_inline v h1 h2 D hD, Decoder.decode, Decoder.run]
  rw [Decoder.new_of_header _ _ _ D hD (by omega)]
  simp only [bind, Except.bind]
  rw [Decoder.decodeValue_inline _ _ (128 + (v + 16)).toNat (by omega) (by omega)]
  · simp [pure, Except.pure]; omega
  · simp [Decoder._byte, DataView.getUint8, ArrayBuffer.byteAt, uint16Bytes]

theorem Encoder.write_ok (e : Encoder) (bs : List Nat)
    (h : e.offset + bs.length ≤ e.capacity) :
    e.write bs = .ok { e with bytes := e.bytes ++ bs } := by
  simp [Encoder.write, h]

theorem Encoder.extendBuffer_bytes (e : Encoder) (c : Nat) :
    (e._extendBuffer c).bytes = e.bytes := by
  unfold Encoder._extendBuffer; split <;> rfl

theorem Encoder.extendBuffer_room (e : Encoder) (n : Nat) (h3 : e.offset ≤ e.capacity)
    (h4 : n ≤ e.capacity) :
    e.offset + n ≤ (e._extendBuffer (e.offset + n)).capacity := by
  unfold Encoder._extendBuffer Encoder.offset at *
  split
  · omega
  · show e.bytes.length + n ≤ 2 * e.capacity
    omega

theorem kind_tag_byte (k L : Nat) (hk : k ≤ 2) (hL : L ≤ 7) :
    ((208 + jsShl (k : Int) 3 + (L : Int)) % 256).toNat = 208 + 8 * k + L := by
  interval_cases k <;> interval_cases L <;> decide

theorem uint16Bytes_of_lt (L : Nat) (hL : L ≤ 65535) :
    uint16Bytes (L : Int) = [L / 256, L % 256] := by
  simp only [uint16Bytes]
  have : ((L : Int) % 65536).toNat = L := by omega
  rw [this]

theorem Encoder.encodeElements_nulls (n : Nat) (rest : List Value) :
    ∀ e : Encoder, e.offset + n ≤ e.capacity →
      Encoder.encodeElements e (List.replicate n Value.null ++ rest)
        = Encoder.encodeElements { e with bytes := e.bytes ++ List.replicate n 252 } rest := by
  induction n with
  | zero => intro e _; simp
  | succ n ih =>
    intro e h
    have h1 : e.offset + 1 ≤ e.capacity := by omega
    have hw : e._encodeValue Value.null = .ok { e with bytes := e.bytes ++ [252] } := by
      simp only [Encoder._encodeValue, Encoder._encodeNull, Encoder._extendBuffer, h1, if_true,
        Encoder.setUint8]
      rw [Encoder.write_ok _ _ (by simpa using h1)]
      rfl
    have hstep : Encoder.encodeElements e (List.replicate (n + 1) Value.null ++ rest)
        = Encoder.encodeElements { e with bytes := e.bytes ++ [252] }
            (List.replicate n Value.null ++ rest) := by
      simp only [List.replicate_succ, List.cons_append, Encoder.encodeElements, hw, bind,
        Except.bind]
      rfl
    rw [hstep, ih _ (by simp [Encoder.offset] at *; omega)]
    simp [List.replicate_succ]

theorem Encoder.writeKindAndLength_48 (e : Encoder) (k L : Nat) (hk : k ≤ 2)
    (hL1 : 65536 ≤ L) (hL2 : L ≤ 281474976710655) (hroom : e.offset + 7 ≤ e.capacity) :
    e._writeKindAndLength k L
      = .ok { e with bytes := e.bytes ++ ([244 + k] ++ uint16Bytes (jsUShr L 32)
                ++ uint32Bytes (jsAnd L 4294967295)) } := by
  have hn : ¬ L ≤ 7 := by omega
  have hn2 : ¬ L ≤ 65535 := by omega
  have hb : ((244 + (k : Int)) % 256).toNat = 244 + k := by omega
  simp only [Encoder._writeKindAndLength, hn, hn2, hL2, if_true, if_false, Encoder.setUint8,
    Encoder.setUint16, Encoder.setUint32, hb, bind, Except.bind, Encoder._extendBuffer, hroom]
  rw [Encoder.write_ok _ _ (by simp [Encoder.offset] at *; omega)]
  dsimp only
  rw [Encoder.write_ok _ _ (by simp [Encoder.offset, uint16Bytes] at *; omega)]
  dsimp only
  rw [Encoder.write_ok _ _ (by simp [Encoder.offset, uint16Bytes, uint32Bytes] at *; omega)]
  simp

theorem Encoder.encode_static_hit_overflow (n : Nat) (h1 : 65535 ≤ n) (h2 : n < 281474976710655)
    (h3 : n + 15 < 67108864) (h4 : 67108864 < n + 17) :
    Encoder.encode (.array (List.replicate n Value.null ++ [.string "s"])) ["s"]
      = .error .rangeError := by
  have hnew : Encoder.new ["s"] = .ok (Encoder.fresh ["s"]) := by simp [Encoder.new]
  simp only [Encoder.encode, hnew, bind, Except.bind, Encoder.encodeValue,
    Encoder.encodeValueState]
  have hcap : ¬ (Encoder.fresh ["s"]).capacity < 8 := by decide
  simp only [hcap, if_false, Encoder._encodeValue, List.length_append, List.length_replicate,
    List.length_singleton, bind, Except.bind, pure, Except.pure]
  rw [Encoder.writeKindAndLength_48 _ 0 (n + 1) (by omega) (by omega) (by omega)
    (by simp [Encoder.offset, Encoder.fresh, Encoder.header, uint16Bytes])]
  dsimp only
  rw [Encoder.encodeElements_nulls n _ _
    (by simp [Encoder.offset, Encoder.fresh, Encoder.header, uint16Bytes, uint32Bytes]; omega)]
  have hs1 : ¬ utf16Length "s" = 0 := by decide
  have hs2 : JsMap.hasOwnProperty (Encoder.fresh ["s"]).dynamicPositions "s" = false := by decide
  have hs3 : JsMap.hasOwnProperty (Encoder.fresh ["s"]).staticPositions "s" = true := by decide
  simp only [Encoder.encodeElements, Encoder._encodeValue, Encoder._encodeString, hs1, hs2, hs3,
    if_false, if_true, Encoder._extendBuffer, Encoder.setUint16, bind, Except.bind]
  have hc : (Encoder.fresh ["s"]).capacity = 67108864 := rfl
  have hb : (Encoder.fresh ["s"]).bytes = [] := rfl
  have hw : ∀ (e : Encoder) (bs : List Nat), e.capacity < e.offset + bs.length →
      e.write bs = .error .rangeError := by
    intro e bs h
    simp only [Encoder.write]
    rw [if_neg (by omega)]
  rw [if_neg (by decide), if_pos (by rw [hc]; decide), hw]
  simp [Encoder.offset, Encoder.header, uint16Bytes, uint32Bytes, hc, hb]
  omega

theorem except_bind_eq_ok {ε α β : Type} (x : Except ε α) (f : α → Except ε β) (b : β)
    (h : (x >>= f) = .ok b) : ∃ a, x = .ok a ∧ f a = .ok b := by
  cases x with
  | error err => simp [bind, Except.bind] at h
  | ok a => exact ⟨a, rfl, h⟩

theorem Encoder.SameDictionary.refl (e : Encoder) : e.SameDictionary e := ⟨rfl, rfl, rfl⟩

theorem Encoder.SameDictionary.trans {a b c : Encoder} (h1 : a.SameDictionary b)
    (h2 : b.SameDictionary c) : a.SameDictionary c :=
  ⟨h2.1.trans h1.1, h2.2.1.trans h1.2.1, h2.2.2.trans h1.2.2⟩

theorem Encoder.SameDictionary.inv {e e' : Encoder} (h : e.SameDictionary e')
    (hi : e.ReverseMapInv) : e'.ReverseMapInv := by
  intro s p hp
  rw [h.2.1] at hp
  rw [h.1, h.2.2]
  exact hi s p hp

theorem Encoder.sameDictionary_extendBuffer (e : Encoder) (c : Nat) :
    e.SameDictionary (e._extendBuffer c) := by
  unfold Encoder._extendBuffer; split
  · exact Encoder.SameDictionary.refl e
  · exact ⟨rfl, rfl, rfl⟩

theorem Encoder.sameDictionary_write {e e' : Encoder} {bs : List Nat}
    (h : e.write bs = .ok e') : e.SameDictionary e' := by
  unfold Encoder.write at h
  split at h
  · cases h; exact ⟨rfl, rfl, rfl⟩
  · cases h

theorem Encoder.sameDictionary_writeKindAndLength {e e' : Encoder} {kind length : Nat}
    (h : e._writeKindAndLength kind length = .ok e') : e.SameDictionary e' := by
  unfold Encoder._writeKindAndLength at h
  split at h
  · exact (Encoder.sameDictionary_extendBuffer e _).trans (Encoder.sameDictionary_write h)
  · split at h
    · obtain ⟨e1, h1, h2⟩ := except_bind_eq_ok _ _ _ h
      exact ((Encoder.sameDictionary_extendBuffer e _).trans
        (Encoder.sameDictionary_write h1)).trans (Encoder.sameDictionary_write h2)
    · split at h
      · obtain ⟨e1, h1, h2⟩ := except_bind_eq_ok _ _ _ h
        obtain ⟨e2, h3, h4⟩ := except_bind_eq_ok _ _ _ h2
        exact (((Encoder.sameDictionary_extendBuffer e _).trans
          (Encoder.sameDictionary_write h1)).trans (Encoder.sameDictionary_write h3)).trans
          (Encoder.sameDictionary_write h4)
      · cases h

theorem Encoder.sameDictionary_encodeNumber {e e' : Encoder} {value : JsNumber}
    (h : e._encodeNumber value = .ok e') : e.SameDictionary e' := by
  unfold Encoder._encodeNumber at h
  split at h
  · exact (Encoder.sameDictionary_extendBuffer e _).trans (Encoder.sameDictionary_write h)
  · obtain ⟨e1, h1, h2⟩ := except_bind_eq_ok _ _ _ h
    exact ((Encoder.sameDictionary_extendBuffer e _).trans
      (Encoder.sameDictionary_write h1)).trans (Encoder.sameDictionary_write h2)

theorem Encoder.sameDictionary_encodeBoolean {e e' : Encoder} {value : Bool}
    (h : e._encodeBoolean value = .ok e') : e.SameDictionary e' :=
  (Encoder.sameDictionary_extendBuffer e _).trans (Encoder.sameDictionary_write h)

theorem Encoder.sameDictionary_encodeNull {e e' : Encoder}
    (h : e._encodeNull = .ok e') : e.SameDictionary e' :=
  (Encoder.sameDictionary_extendBuffer e _).trans (Encoder.sameDictionary_write h)

theorem JsMap.set_some {m : JsMap} {key s : String} {v p : Nat}
    (h : m.set key v s = some p) : (s = key ∧ p = v) ∨ m s = some p := by
  unfold JsMap.set at h
  split at h
  · exact Or.inr h
  · by_cases hs : s = key
    · simp [hs] at h
      exact Or.inl ⟨hs, h.symm⟩
    · simp [hs] at h
      exact Or.inr h

theorem JsMap.delete_some {m : JsMap} {key s : String} {p : Nat}
    (h : m.delete key s = some p) : s ≠ key ∧ m s = some p := by
  unfold JsMap.delete at h
  by_cases hs : s = key
  · simp [hs] at h
  · simp [hs] at h
    exact ⟨hs, h⟩

theorem Encoder.insertDynamic_dictionary (e : Encoder) (value : String) :
    (e.insertDynamic value).dynamicDictionary
      = fun x => if x = e.dynamicInserted % 128 then some value else e.dynamicDictionary x := by
  simp only [Encoder.insertDynamic, jsAnd_127, apply_ite Encoder.dynamicDictionary, ite_self]

theorem Encoder.insertDynamic_inserted (e : Encoder) (value : String) :
    (e.insertDynamic value).dynamicInserted = e.dynamicInserted + 1 := by
  simp only [Encoder.insertDynamic, jsAnd_127, apply_ite Encoder.dynamicInserted, ite_self]

theorem Encoder.insertDynamic_positions (e : Encoder) (value : String) :
    (e.insertDynamic value).dynamicPositions
      = if (e.dynamicPositions.set value (e.dynamicInserted % 128))
             (propertyKey (if (e.dynamicInserted + 1) % 128 = e.dynamicInserted % 128
                then some value else e.dynamicDictionary ((e.dynamicInserted + 1) % 128)))
           = some ((e.dynamicInserted + 1) % 128)
        then (e.dynamicPositions.set value (e.dynamicInserted % 128)).delete
          (propertyKey (if (e.dynamicInserted + 1) % 128 = e.dynamicInserted % 128
                then some value else e.dynamicDictionary ((e.dynamicInserted + 1) % 128)))
        else e.dynamicPositions.set value (e.dynamicInserted % 128) := by
  simp only [Encoder.insertDynamic, jsAnd_127, apply_ite Encoder.dynamicPositions]

theorem Encoder.inv_insertDynamic (e : Encoder) (value : String) (hi : e.ReverseMapInv) :
    (e.insertDynamic value).ReverseMapInv := by
  -- the state after the insertion and before the eviction
  have hq : ∀ (s : String) (p : Nat),
      (e.dynamicPositions.set value (e.dynamicInserted % 128)) s = some p →
      (if p = e.dynamicInserted % 128 then some value else e.dynamicDictionary p) = some s := by
    intro s p hp
    rcases JsMap.set_some hp with ⟨hs, hpv⟩ | hold
    · simp [hs, hpv]
    · obtain ⟨hd, hne⟩ := hi s p hold
      simp [hne, hd]
  intro s p hp
  rw [Encoder.insertDynamic_dictionary, Encoder.insertDynamic_inserted]
  rw [Encoder.insertDynamic_positions] at hp
  by_cases hk : (e.dynamicPositions.set value (e.dynamicInserted % 128))
             (propertyKey (if (e.dynamicInserted + 1) % 128 = e.dynamicInserted % 128
                then some value else e.dynamicDictionary ((e.dynamicInserted + 1) % 128)))
           = some ((e.dynamicInserted + 1) % 128)
  · rw [if_pos hk] at hp
    obtain ⟨hsk, hp'⟩ := JsMap.delete_some hp
    refine ⟨hq s p hp', ?_⟩
    intro hpj
    apply hsk
    have hd := hq s p hp'
    rw [hpj] at hd
    rw [hd]
    rfl
  · rw [if_neg hk] at hp
    refine ⟨hq s p hp, ?_⟩
    intro hpj
    apply hk
    have hd := hq s p hp
    rw [hpj] at hd hp
    rw [hd]
    exact hp

theorem Encoder.inv_encodeString {e e' : Encoder} {value : String}
    (h : e._encodeString value = .ok e') (hi : e.ReverseMapInv) : e'.ReverseMapInv := by
  unfold Encoder._encodeString at h
  split at h
  · exact (Encoder.sameDictionary_writeKindAndLength h).inv hi
  · split at h
    · exact ((Encoder.sameDictionary_extendBuffer e _).trans
        (Encoder.sameDictionary_write h)).inv hi
    · split at h
      · exact ((Encoder.sameDictionary_extendBuffer e _).trans
          (Encoder.sameDictionary_write h)).inv hi
      · obtain ⟨e1, h1, h2⟩ := except_bind_eq_ok _ _ _ h
        obtain ⟨e2, h3, h4⟩ := except_bind_eq_ok _ _ _ h2
        have hi2 : e2.ReverseMapInv :=
          (((Encoder.sameDictionary_writeKindAndLength h1).trans
            (Encoder.sameDictionary_extendBuffer e1 _)).trans
            (Encoder.sameDictionary_write h3)).inv hi
        split at h4
        · cases h4; exact hi2
        · cases h4; exact Encoder.inv_insertDynamic e2 value hi2

mutual
theorem Encoder.inv_encodeValue : ∀ (value : Value) (e e' : Encoder),
    e._encodeValue value = .ok e' → e.ReverseMapInv → e'.ReverseMapInv
  | .number _, e, e', h, hi => by
    rw [Encoder._encodeValue] at h
    exact (Encoder.sameDictionary_encodeNumber h).inv hi
  | .string _, e, e', h, hi => by
    rw [Encoder._encodeValue] at h
    exact Encoder.inv_encodeString h hi
  | .bool _, e, e', h, hi => by
    rw [Encoder._encodeValue] at h
    exact (Encoder.sameDictionary_encodeBoolean h).inv hi
  | .null, e, e', h, hi => by
    rw [Encoder._encodeValue] at h
    exact (Encoder.sameDictionary_encodeNull h).inv hi
  | .array xs, e, e', h, hi => by
    rw [Encoder._encodeValue] at h
    obtain ⟨e1, h1, h2⟩ := except_bind_eq_ok _ _ _ h
    exact Encoder.inv_encodeElements xs e1 e' h2
      ((Encoder.sameDictionary_writeKindAndLength h1).inv hi)
  | .object fields, e, e', h, hi => by
    rw [Encoder._encodeValue] at h
    obtain ⟨e1, h1, h2⟩ := except_bind_eq_ok _ _ _ h
    exact Encoder.inv_encodeFields fields e1 e' h2
      ((Encoder.sameDictionary_writeKindAndLength h1).inv hi)
theorem Encoder.inv_encodeElements : ∀ (xs : List Value) (e e' : Encoder),
    Encoder.encodeElements e xs = .ok e' → e.ReverseMapInv → e'.ReverseMapInv
  | [], e, e', h, hi => by
    rw [Encoder.encodeElements] at h
    cases h; exact hi
  | x :: xs, e, e', h, hi => by
    rw [Encoder.encodeElements] at h
    obtain ⟨e1, h1, h2⟩ := except_bind_eq_ok _ _ _ h
    exact Encoder.inv_encodeElements xs e1 e' h2 (Encoder.inv_encodeValue x e e1 h1 hi)
theorem Encoder.inv_encodeFields : ∀ (fields : List (String × Value)) (e e' : Encoder),
    Encoder.encodeFields e fields = .ok e' → e.ReverseMapInv → e'.ReverseMapInv
  | [], e, e', h, hi => by
    rw [Encoder.encodeFields] at h
    cases h; exact hi
  | (k, v) :: rest, e, e', h, hi => by
    rw [Encoder.encodeFields] at h
    obtain ⟨e1, h1, h2⟩ := except_bind_eq_ok _ _ _ h
    obtain ⟨e2, h3, h4⟩ := except_bind_eq_ok _ _ _ h2
    exact Encoder.inv_encodeFields rest e2 e' h4
      (Encoder.inv_encodeValue v e1 e2 h3 (Encoder.inv_encodeString h1 hi))
end

theorem Encoder.inv_encodeValueState {e e' : Encoder} {value : Value}
    (h : e.encodeValueState value = .ok e') (hi : e.ReverseMapInv) : e'.ReverseMapInv := by
  unfold Encoder.encodeValueState at h
  split at h
  · simp [bind, Except.bind, throw, throwThe, MonadExceptOf.throw] at h
  · simp only [bind, Except.bind, pure, Except.pure] at h
    refine Encoder.inv_encodeValue value _ e' h ?_
    exact Encoder.SameDictionary.inv ⟨rfl, rfl, rfl⟩ hi


theorem Encoder.Grows.andThen {a b c : Encoder} (h1 : a.Grows b) (h2 : b.Grows c) :
    a.Grows c := ⟨Nat.le_trans h1.1 h2.1, h2.2⟩

theorem Encoder.grows_write {e e' : Encoder} {bs : List Nat}
    (h : e.write bs = .ok e') : e.Grows e' := by
  unfold Encoder.write at h
  split at h
  · rename_i hfit
    cases h
    exact ⟨Nat.le_refl _, by simpa [Encoder.offset] using hfit⟩
  · cases h

theorem Encoder.grows_extend_write {e e' : Encoder} {c : Nat} {bs : List Nat}
    (h : (e._extendBuffer c).write bs = .ok e') : e.Grows e' := by
  have h1 := Encoder.grows_write h
  refine ⟨Nat.le_trans ?_ h1.1, h1.2⟩
  unfold Encoder._extendBuffer
  split
  · exact Nat.le_refl _
  · show e.capacity ≤ 2 * e.capacity
    omega

theorem Encoder.grows_writeKindAndLength {e e' : Encoder} {kind length : Nat}
    (h : e._writeKindAndLength kind length = .ok e') : e.Grows e' := by
  unfold Encoder._writeKindAndLength at h
  split at h
  · exact Encoder.grows_extend_write h
  · split at h
    · obtain ⟨e1, h1, h2⟩ := except_bind_eq_ok _ _ _ h
      exact (Encoder.grows_extend_write h1).andThen (Encoder.grows_write h2)
    · split at h
      · obtain ⟨e1, h1, h2⟩ := except_bind_eq_ok _ _ _ h
        obtain ⟨e2, h3, h4⟩ := except_bind_eq_ok _ _ _ h2
        exact ((Encoder.grows_extend_write h1).andThen (Encoder.grows_write h3)).andThen
          (Encoder.grows_write h4)
      · cases h

theorem Encoder.grows_encodeNumber {e e' : Encoder} {value : JsNumber}
    (h : e._encodeNumber value = .ok e') : e.Grows e' := by
  unfold Encoder._encodeNumber at h
  split at h
  · exact Encoder.grows_extend_write h
  · obtain ⟨e1, h1, h2⟩ := except_bind_eq_ok _ _ _ h
    exact (Encoder.grows_extend_write h1).andThen (Encoder.grows_write h2)

theorem Encoder.insertDynamic_bytes (e : Encoder) (value : String) :
    (e.insertDynamic value).bytes = e.bytes := by
  simp only [Encoder.insertDynamic, apply_ite Encoder.bytes, ite_self]

theorem Encoder.insertDynamic_capacity (e : Encoder) (value : String) :
    (e.insertDynamic value).capacity = e.capacity := by
  simp only [Encoder.insertDynamic, apply_ite Encoder.capacity, ite_self]

theorem Encoder.grows_encodeString {e e' : Encoder} {value : String}
    (h : e._encodeString value = .ok e') : e.Grows e' := by
  unfold Encoder._encodeString at h
  split at h
  · exact Encoder.grows_writeKindAndLength h
  · split at h
    · exact Encoder.grows_extend_write h
    · split at h
      · exact Encoder.grows_extend_write h
      · obtain ⟨e1, h1, h2⟩ := except_bind_eq_ok _ _ _ h
        obtain ⟨e2, h3, h4⟩ := except_bind_eq_ok _ _ _ h2
        have hg : e.Grows e2 :=
          (Encoder.grows_writeKindAndLength h1).andThen (Encoder.grows_extend_write h3)
        split at h4
        · cases h4; exact hg
        · cases h4
          exact ⟨by rw [Encoder.insertDynamic_capacity]; exact hg.1,
            by rw [Encoder.offset, Encoder.insertDynamic_bytes, Encoder.insertDynamic_capacity]
               exact hg.2⟩

mutual
theorem Encoder.grows_encodeValue : ∀ (value : Value) (e e' : Encoder),
    e._encodeValue value = .ok e' → e.Grows e'
  | .number _, e, e', h => by
    rw [Encoder._encodeValue] at h
    exact Encoder.grows_encodeNumber h
  | .string _, e, e', h => by
    rw [Encoder._encodeValue] at h
    exact Encoder.grows_encodeString h
  | .bool _, e, e', h => by
    rw [Encoder._encodeValue] at h
    exact Encoder.grows_extend_write h
  | .null, e, e', h => by
    rw [Encoder._encodeValue] at h
    exact Encoder.grows_extend_write h
  | .array xs, e, e', h => by
    rw [Encoder._encodeValue] at h
    obtain ⟨e1, h1, h2⟩ := except_bind_eq_ok _ _ _ h
    have hg := Encoder.grows_writeKindAndLength h1
    exact hg.andThen (Encoder.grows_encodeElements xs e1 e' h2 hg.2)
  | .object fields, e, e', h => by
    rw [Encoder._encodeValue] at h
    obtain ⟨e1, h1, h2⟩ := except_bind_eq_ok _ _ _ h
    have hg := Encoder.grows_writeKindAndLength h1
    exact hg.andThen (Encoder.grows_encodeFields fields e1 e' h2 hg.2)
theorem Encoder.grows_encodeElements : ∀ (xs : List Value) (e e' : Encoder),
    Encoder.encodeElements e xs = .ok e' → e.offset ≤ e.capacity → e.Grows e'
  | [], e, e', h, hfit => by
    rw [Encoder.encodeElements] at h
    cases h; exact ⟨Nat.le_refl _, hfit⟩
  | x :: xs, e, e', h, _ => by
    rw [Encoder.encodeElements] at h
    obtain ⟨e1, h1, h2⟩ := except_bind_eq_ok _ _ _ h
    have hg := Encoder.grows_encodeValue x e e1 h1
    exact hg.andThen (Encoder.grows_encodeElements xs e1 e' h2 hg.2)
theorem Encoder.grows_encodeFields : ∀ (fields : List (String × Value)) (e e' : Encoder),
    Encoder.encodeFields e fields = .ok e' → e.offset ≤ e.capacity → e.Grows e'
  | [], e, e', h, hfit => by
    rw [Encoder.encodeFields] at h
    cases h; exact ⟨Nat.le_refl _, hfit⟩
  | (k, v) :: rest, e, e', h, _ => by
    rw [Encoder.encodeFields] at h
    obtain ⟨e1, h1, h2⟩ := except_bind_eq_ok _ _ _ h
    obtain ⟨e2, h3, h4⟩ := except_bind_eq_ok _ _ _ h2
    have hg := (Encoder.grows_encodeString h1).andThen (Encoder.grows_encodeValue v e1 e2 h3)
    exact hg.andThen (Encoder.grows_encodeFields rest e2 e' h4 hg.2)
end

theorem Encoder.grows_encodeValueState {e e' : Encoder} {value : Value}
    (h : e.encodeValueState value = .ok e') : e.Grows e' := by
  unfold Encoder.encodeValueState at h
  split at h
  · simp [bind, Except.bind, throw, throwThe, MonadExceptOf.throw] at h
  · simp only [bind, Except.bind, pure, Except.pure] at h
    have hg := Encoder.grows_encodeValue value _ e' h
    exact ⟨hg.1, hg.2⟩

/-- In every state the encoder reaches, the offset lies within the buffer and the buffer
has at least its initial 64 MiB. -/
theorem Encoder.Reachable.fits {e : Encoder} (h : e.Reachable) :
    e.offset ≤ e.capacity ∧ 67108864 ≤ e.capacity := by
  induction h with
  | fresh D => exact ⟨by simp [Encoder.fresh, Encoder.offset], by simp [Encoder.fresh]⟩
  | header value _ hstep ih =>
    have hg := Encoder.grows_encodeValueState hstep
    exact ⟨hg.2, Nat.le_trans ih.2 hg.1⟩
  | encodeValue value _ hstep ih =>
    have hg := Encoder.grows_encodeValue value _ _ hstep
    exact ⟨hg.2, Nat.le_trans ih.2 hg.1⟩
  | encodeString value _ hstep ih =>
    have hg := Encoder.grows_encodeString hstep
    exact ⟨hg.2, Nat.le_trans ih.2 hg.1⟩
  | encodeNumber value _ hstep ih =>
    have hg := Encoder.grows_encodeNumber hstep
    exact ⟨hg.2, Nat.le_trans ih.2 hg.1⟩
  | encodeBoolean value _ hstep ih =>
    have hg := Encoder.grows_extend_write hstep
    exact ⟨hg.2, Nat.le_trans ih.2 hg.1⟩
  | encodeNull _ hstep ih =>
    have hg := Encoder.grows_extend_write hstep
    exact ⟨hg.2, Nat.le_trans ih.2 hg.1⟩
  | writeKindAndLength kind length _ hstep ih =>
    have hg := Encoder.grows_writeKindAndLength hstep
    exact ⟨hg.2, Nat.le_trans ih.2 hg.1⟩

/-- The condition of `_encodeNumber` holds for every number but NaN: each of them is
written as a single byte. -/
theorem Encoder.encodeNumber_one_byte (e : Encoder) (value : JsNumber) (hv : value ≠ .nan)
    (h3 : e.offset ≤ e.capacity) (h4 : 0 < e.capacity) :
    ∃ e' b, e._encodeNumber value = .ok e' ∧ e'.bytes = e.bytes ++ [b] := by
  have ht : Encoder.encodeNumberTest value = 1 := by
    cases value with
    | nan => exact absurd rfl hv
    | posInf => decide
    | negInf => decide
    | fin n k => simp [Encoder.encodeNumberTest, JsNumber.strictEq]; decide
  simp only [Encoder._encodeNumber, ht, Encoder.setUint8]
  rw [Encoder.write_extend e 1 _ (by simp) h3 (by omega)]
  exact ⟨{ e._extendBuffer (e.offset + 1) with
      bytes := e.bytes ++ [(jsOr 128 (value.addInt 16).toInt32 % 256).toNat] },
    (jsOr 128 (value.addInt 16).toInt32 % 256).toNat, by simp, rfl⟩

/-! ## The fuel of the decoder suffices -/


theorem DataView.getUint8_cases (v : DataView) (i : Nat) :
    (v.getUint8 i = .error .rangeError ∧ v.byteLength < i + 1) ∨
    (∃ b, v.getUint8 i = .ok b ∧ i + 1 ≤ v.byteLength) := by
  unfold DataView.getUint8
  split
  · exact Or.inr ⟨_, rfl, by assumption⟩
  · exact Or.inl ⟨rfl, by omega⟩

theorem DataView.getUint16_cases (v : DataView) (i : Nat) :
    (v.getUint16 i = .error .rangeError) ∨
    (∃ b, v.getUint16 i = .ok b ∧ i + 2 ≤ v.byteLength) := by
  unfold DataView.getUint16
  split
  · exact Or.inr ⟨_, rfl, by assumption⟩
  · exact Or.inl rfl

theorem DataView.getUint32_cases (v : DataView) (i : Nat) :
    (v.getUint32 i = .error .rangeError) ∨
    (∃ b, v.getUint32 i = .ok b ∧ i + 4 ≤ v.byteLength) := by
  unfold DataView.getUint32
  split
  · exact Or.inr ⟨_, rfl, by assumption⟩
  · exact Or.inl rfl

theorem DataView.getUint64_cases (v : DataView) (i : Nat) :
    (v.getUint64 i = .error .rangeError) ∨
    (∃ b, v.getUint64 i = .ok b ∧ i + 8 ≤ v.byteLength) := by
  unfold DataView.getUint64
  rcases DataView.getUint32_cases v i with h | ⟨hi, h, _⟩
  · exact Or.inl (by simp [h, bind, Except.bind])
  · rcases DataView.getUint32_cases v (i + 4) with h2 | ⟨lo, h2, hb⟩
    · exact Or.inl (by simp [h, h2, bind, Except.bind])
    · exact Or.inr ⟨_, by simp [h, h2, bind, Except.bind, pure, Except.pure]; rfl, by omega⟩

theorem ArrayBuffer.view_cases (b : ArrayBuffer) (o : Nat) (len : Int) :
    (b.view o len = .error .rangeError) ∨ (∃ bs, b.view o len = .ok bs) := by
  unfold ArrayBuffer.view
  split
  · exact Or.inl rfl
  · split
    · exact Or.inl rfl
    · exact Or.inr ⟨_, rfl⟩

theorem Decoder.advances_decodeString (d : Decoder) (len : Int) :
    Decoder.Advances 0 d (d._decodeString len) := by
  unfold Decoder._decodeString
  rcases ArrayBuffer.view_cases d.dataView.buffer d.offset len with h | ⟨bs, h⟩
  · rw [h]
    exact ⟨by simp [bind, Except.bind], by intro a d' h'; simp [bind, Except.bind] at h'⟩
  · rw [h]
    simp only [bind, Except.bind]
    split
    · refine ⟨by simp [pure, Except.pure], ?_⟩
      intro a d' h'
      simp only [pure, Except.pure, Except.ok.injEq, Prod.mk.injEq] at h'
      obtain ⟨_, rfl⟩ := h'
      exact ⟨by simp, rfl⟩
    · refine ⟨by simp [pure, Except.pure], ?_⟩
      intro a d' h'
      simp only [pure, Except.pure, Except.ok.injEq, Prod.mk.injEq] at h'
      obtain ⟨_, rfl⟩ := h'
      exact ⟨by simp, rfl⟩

theorem Decoder.Advances.mono {α : Type} {k k' : Nat} {d : Decoder}
    {x : Except DecoderFailure (α × Decoder)} (h : Decoder.Advances k d x) (hk : k' ≤ k) :
    Decoder.Advances k' d x :=
  ⟨h.1, fun a d' hx => ⟨by have := (h.2 a d' hx).1; omega, (h.2 a d' hx).2⟩⟩

theorem Decoder.advances_error {α : Type} (k : Nat) (d : Decoder) (err : DecoderFailure)
    (h : err ≠ .outOfFuel) :
    Decoder.Advances k d (.error err : Except DecoderFailure (α × Decoder)) :=
  ⟨by intro h'; cases h'; exact h rfl, by intro a d' h'; cases h'⟩

theorem Decoder.advances_ok {α : Type} (k : Nat) (d d' : Decoder) (a : α)
    (h1 : d.offset + k ≤ d'.offset) (h2 : d'.dataView = d.dataView) :
    Decoder.Advances k d (.ok (a, d') : Except DecoderFailure (α × Decoder)) :=
  ⟨(by intro h'; cases h'), by intro a' d'' h'; cases h'; exact ⟨h1, h2⟩⟩

/-- Sequencing: the second step starts in the state the first step ends in. -/
theorem Decoder.advances_bind {α β : Type} {k j : Nat} {d : Decoder}
    {x : Except DecoderFailure (α × Decoder)}
    {f : α × Decoder → Except DecoderFailure (β × Decoder)}
    (hx : Decoder.Advances k d x)
    (hf : ∀ a d1, x = .ok (a, d1) → Decoder.Advances j d1 (f (a, d1))) :
    Decoder.Advances (k + j) d (x >>= f) := by
  cases x with
  | error err =>
    refine ⟨?_, ?_⟩
    · intro h'
      simp only [bind, Except.bind] at h'
      cases h'
      exact hx.1 rfl
    · intro a d' h'
      simp only [bind, Except.bind] at h'
      cases h'
  | ok r =>
    obtain ⟨a, d1⟩ := r
    have h1 := hx.2 a d1 rfl
    have h2 := hf a d1 rfl
    refine ⟨h2.1, ?_⟩
    intro b d' h'
    have h3 := h2.2 b d' h'
    exact ⟨by omega, h3.2.trans h1.2⟩

theorem Decoder.advances_map {α β : Type} {k : Nat} {d : Decoder}
    {x : Except DecoderFailure (α × Decoder)} (g : α × Decoder → β)
    (hx : Decoder.Advances k d x) :
    Decoder.Advances k d (x >>= fun r => pure (g r, r.2)) := by
  have := Decoder.advances_bind (j := 0) hx
    (f := fun r => (pure (g r, r.2) : Except DecoderFailure (β × Decoder)))
    (fun a d1 _ => Decoder.advances_ok 0 d1 d1 _ (by omega) rfl)
  simpa using this

theorem Decoder.advances_from {α : Type} {k : Nat} {d d1 : Decoder}
    {x : Except DecoderFailure (α × Decoder)} (h : Decoder.Advances 0 d1 x)
    (ho : d.offset + k ≤ d1.offset) (hv : d1.dataView = d.dataView) :
    Decoder.Advances k d x :=
  ⟨h.1, fun a d' hx => ⟨by have := (h.2 a d' hx).1; omega, (h.2 a d' hx).2.trans hv⟩⟩

theorem Decoder.decodeValue_ok_lt (n : Nat) (d : Decoder) (v : Value) (d' : Decoder)
    (h : d.decodeValue n = .ok (v, d')) : d.offset + 1 ≤ d.dataView.byteLength := by
  cases n with
  | zero => rw [Decoder.decodeValue] at h; cases h
  | succ n =>
    rw [Decoder.decodeValue] at h
    rcases DataView.getUint8_cases d.dataView (d.offset + 0) with ⟨hb, _⟩ | ⟨b, hb, hlt⟩
    · unfold Decoder._byte at h
      rw [hb] at h
      cases h
    · simpa using hlt

theorem Decoder.decodeArray_succ (n : Nat) (d : Decoder) (len : Int) :
    Decoder._decodeArray (n + 1) d len
      = if len < 0 ∨ 4294967296 ≤ len then .error .rangeError
        else (Decoder.decodeElements n d len.toNat >>= fun r => pure (.array r.1, r.2)) := rfl

theorem Decoder.decodeObject_succ (n : Nat) (d : Decoder) (len : Int) :
    Decoder._decodeObject (n + 1) d len
      = (Decoder.decodeFields n d len.toNat [] >>= fun r => pure (.object r.1, r.2)) := rfl

theorem Decoder.decodeElements_zero (n : Nat) (d : Decoder) :
    Decoder.decodeElements n d 0 = .ok ([], d) := by
  cases n <;> rfl

theorem Decoder.decodeElements_succ (n : Nat) (d : Decoder) (count : Nat) :
    Decoder.decodeElements (n + 1) d (count + 1)
      = (d.decodeValue n >>= fun r =>
          Decoder.decodeElements n r.2 count >>= fun rest =>
            pure (r.1 :: rest.1, rest.2)) := rfl

theorem Decoder.decodeFields_zero (n : Nat) (d : Decoder) (result : List (String × Value)) :
    Decoder.decodeFields n d 0 result = .ok (result, d) := by
  cases n <;> rfl

theorem Decoder.decodeFields_succ (n : Nat) (d : Decoder) (count : Nat)
    (result : List (String × Value)) :
    Decoder.decodeFields (n + 1) d (count + 1) result
      = (d.decodeValue n >>= fun f =>
          match f.1 with
          | .string name =>
            Decoder.decodeValue n f.2 >>= fun v =>
              Decoder.decodeFields n v.2 count (objectSet result name v.1)
          | _ => .error (.decoderError d.offset)) := rfl

theorem Decoder.decodeData_succ (n : Nat) (d : Decoder) (len : Int) :
    Decoder._decodeData (n + 1) d len
      = (d.decodeValue n >>= fun m =>
          match m.1 with
          | .string mediaType =>
            m.2.dataView.buffer.view m.2.offset len >>= fun _ =>
              pure (.string ("data:" ++ mediaType ++ "," ++ btoaOfDataView),
                { m.2 with offset := m.2.offset + len.toNat })
          | _ => .error (.decoderError d.offset)) := rfl

theorem Decoder.fuelSuffices_array {n : Nat} (ih : Decoder.FuelSuffices n) (d : Decoder)
    (len : Int) (h : 3 * d.remaining + 3 ≤ n + 1) :
    Decoder.Advances 0 d (Decoder._decodeArray (n + 1) d len) := by
  rw [Decoder.decodeArray_succ]
  split
  · exact Decoder.advances_error 0 d _ (by decide)
  · exact Decoder.advances_map (fun r => Value.array r.1) (ih.2.1 d _ (Or.inl (by omega)))

theorem Decoder.fuelSuffices_object {n : Nat} (ih : Decoder.FuelSuffices n) (d : Decoder)
    (len : Int) (h : 3 * d.remaining + 3 ≤ n + 1) :
    Decoder.Advances 0 d (Decoder._decodeObject (n + 1) d len) := by
  rw [Decoder.decodeObject_succ]
  exact Decoder.advances_map (fun r => Value.object r.1)
    (ih.2.2.1 d _ [] (Or.inl (by omega)))

theorem Decoder.remaining_after {d d1 : Decoder} (ho : d.offset + 1 ≤ d1.offset)
    (hv : d1.dataView = d.dataView) (hlt : d.offset + 1 ≤ d.dataView.byteLength) :
    d1.remaining + 1 ≤ d.remaining := by
  unfold Decoder.remaining
  rw [hv]
  omega

theorem Decoder.fuelSuffices_elements {n : Nat} (ih : Decoder.FuelSuffices n) (d : Decoder)
    (count : Nat) (h : 3 * d.remaining + 2 ≤ n + 1 ∨ count = 0) :
    Decoder.Advances 0 d (Decoder.decodeElements (n + 1) d count) := by
  cases count with
  | zero =>
    rw [Decoder.decodeElements_zero]
    exact Decoder.advances_ok 0 d d _ (by omega) rfl
  | succ count =>
    have h : 3 * d.remaining + 2 ≤ n + 1 := by
      rcases h with h | h
      · exact h
      · cases h
    rw [Decoder.decodeElements_succ]
    have h1 := ih.1 d (by omega)
    refine (Decoder.advances_bind (j := 0) h1 ?_).mono (by omega)
    intro v d1 hv
    have hadv := (h1.2 v d1 hv)
    have hrem := Decoder.remaining_after hadv.1 hadv.2 (Decoder.decodeValue_ok_lt n d v d1 hv)
    have h2 := ih.2.1 d1 count (Or.inl (by omega))
    exact Decoder.advances_map (fun r => v :: r.1) h2

theorem Decoder.fuelSuffices_fields {n : Nat} (ih : Decoder.FuelSuffices n) (d : Decoder)
    (count : Nat) (result : List (String × Value))
    (h : 3 * d.remaining + 2 ≤ n + 1 ∨ count = 0) :
    Decoder.Advances 0 d (Decoder.decodeFields (n + 1) d count result) := by
  cases count with
  | zero =>
    rw [Decoder.decodeFields_zero]
    exact Decoder.advances_ok 0 d d _ (by omega) rfl
  | succ count =>
    have h : 3 * d.remaining + 2 ≤ n + 1 := by
      rcases h with h | h
      · exact h
      · cases h
    rw [Decoder.decodeFields_succ]
    have h1 := ih.1 d (by omega)
    refine (Decoder.advances_bind (j := 0) h1 ?_).mono (by omega)
    intro f d1 hf
    have hadv := (h1.2 f d1 hf)
    have hrem := Decoder.remaining_after hadv.1 hadv.2 (Decoder.decodeValue_ok_lt n d f d1 hf)
    cases f with
    | string name =>
      have h2 := ih.1 d1 (by omega)
      refine (Decoder.advances_bind (j := 0) h2 ?_).mono (by omega)
      intro v d2 hv
      have hadv2 := (h2.2 v d2 hv)
      have hrem2 := Decoder.remaining_after hadv2.1 hadv2.2
        (Decoder.decodeValue_ok_lt n d1 _ d2 hv)
      exact ih.2.2.1 d2 count _ (Or.inl (by omega))
    | null => exact Decoder.advances_error 0 d1 _ (by intro h; cases h)
    | bool _ => exact Decoder.advances_error 0 d1 _ (by intro h; cases h)
    | number _ => exact Decoder.advances_error 0 d1 _ (by intro h; cases h)
    | array _ => exact Decoder.advances_error 0 d1 _ (by intro h; cases h)
    | object _ => exact Decoder.advances_error 0 d1 _ (by intro h; cases h)

theorem Decoder.fuelSuffices_data {n : Nat} (ih : Decoder.FuelSuffices n) (d : Decoder)
    (len : Int) (h : 3 * d.remaining + 2 ≤ n + 1) :
    Decoder.Advances 0 d (Decoder._decodeData (n + 1) d len) := by
  rw [Decoder.decodeData_succ]
  have h1 := ih.1 d (by omega)
  refine (Decoder.advances_bind (j := 0) h1 ?_).mono (by omega)
  intro m d1 hm
  cases m with
  | string mediaType =>
    rcases ArrayBuffer.view_cases d1.dataView.buffer d1.offset len with hv | ⟨bs, hv⟩
    · simp only [hv, bind, Except.bind]
      exact Decoder.advances_error 0 d1 _ (by intro h; cases h)
    · simp only [hv, bind, Except.bind, pure, Except.pure]
      exact Decoder.advances_ok 0 d1 _ _ (by simp) rfl
  | null => exact Decoder.advances_error 0 d1 _ (by intro h; cases h)
  | bool _ => exact Decoder.advances_error 0 d1 _ (by intro h; cases h)
  | number _ => exact Decoder.advances_error 0 d1 _ (by intro h; cases h)
  | array _ => exact Decoder.advances_error 0 d1 _ (by intro h; cases h)
  | object _ => exact Decoder.advances_error 0 d1 _ (by intro h; cases h)

theorem jsUShr_tag (b : Nat) (h1 : 192 ≤ b) (h2 : b ≤ 239) :
    jsUShr (b : Int) 3 = 24 ∨ jsUShr (b : Int) 3 = 25 ∨ jsUShr (b : Int) 3 = 26 ∨
    jsUShr (b : Int) 3 = 27 ∨ jsUShr (b : Int) 3 = 28 ∨ jsUShr (b : Int) 3 = 29 := by
  interval_cases b <;> decide

theorem Decoder.fuelSuffices_value {n : Nat} (ih : Decoder.FuelSuffices n) (d : Decoder)
    (h : 3 * d.remaining + 1 ≤ n + 1) :
    Decoder.Advances 1 d (d.decodeValue (n + 1)) := by
  rw [Decoder.decodeValue]
  rcases DataView.getUint8_cases d.dataView (d.offset + 0) with ⟨hb, _⟩ | ⟨b, hb, hlt⟩
  · simp only [Decoder._byte, hb, bind, Except.bind]
    exact Decoder.advances_error 1 d _ (by intro h; cases h)
  · simp only [Decoder._byte, hb, bind, Except.bind]
    -- the recursive calls start at least one byte further, over the same view
    have hrec : ∀ (k : Nat) (d1 : Decoder), d1.dataView = d.dataView →
        d1.offset = d.offset + 1 + k → 3 * d1.remaining + 3 ≤ n := by
      intro k d1 hv ho
      unfold Decoder.remaining at *
      rw [hv, ho]
      omega
    have harr : ∀ (k : Nat) (d1 : Decoder) (len : Int), d1.dataView = d.dataView →
        d1.offset = d.offset + 1 + k →
        Decoder.Advances 1 d (Decoder._decodeArray n d1 len) := fun k d1 len hv ho =>
      Decoder.advances_from (ih.2.2.2.2.1 d1 len (hrec k d1 hv ho)) (by omega) hv
    have hobj : ∀ (k : Nat) (d1 : Decoder) (len : Int), d1.dataView = d.dataView →
        d1.offset = d.offset + 1 + k →
        Decoder.Advances 1 d (Decoder._decodeObject n d1 len) := fun k d1 len hv ho =>
      Decoder.advances_from (ih.2.2.2.2.2 d1 len (hrec k d1 hv ho)) (by omega) hv
    have hdat : ∀ (k : Nat) (d1 : Decoder) (len : Int), d1.dataView = d.dataView →
        d1.offset = d.offset + 1 + k →
        Decoder.Advances 1 d (Decoder._decodeData n d1 len) := fun k d1 len hv ho =>
      Decoder.advances_from (ih.2.2.2.1 d1 len (by have := hrec k d1 hv ho; omega))
        (by omega) hv
    have hstr : ∀ (k : Nat) (d1 : Decoder) (len : Int), d1.dataView = d.dataView →
        d1.offset = d.offset + 1 + k →
        Decoder.Advances 1 d (d1._decodeString len) := fun k d1 len hv ho =>
      Decoder.advances_from (Decoder.advances_decodeString d1 len) (by omega) hv
    by_cases c1 : b ≤ 127
    · rw [if_pos c1]
      exact Decoder.advances_ok 1 d _ _ (by simp) rfl
    rw [if_neg c1]
    by_cases c2 : b ≤ 191
    · rw [if_pos c2]
      exact Decoder.advances_ok 1 d _ _ (by simp) rfl
    rw [if_neg c2]
    by_cases c3 : b ≤ 239
    · rw [if_pos c3]
      rcases jsUShr_tag b (by omega) c3 with t | t | t | t | t | t <;> rw [t] <;> try dsimp only
      · rcases DataView.getUint8_cases d.dataView (d.offset + 1 + 0) with ⟨h1, _⟩ | ⟨v, h1, _⟩
        · rw [h1]; exact Decoder.advances_error 1 d _ (by intro h; cases h)
        · rw [h1]; exact Decoder.advances_ok 1 d _ _ (by simp) rfl
      · rcases DataView.getUint8_cases d.dataView (d.offset + 1 + 0) with ⟨h1, _⟩ | ⟨v, h1, _⟩
        · rw [h1]; exact Decoder.advances_error 1 d _ (by intro h; cases h)
        · rw [h1]; exact Decoder.advances_ok 1 d _ _ (by simp) rfl
      · exact harr 0 _ _ rfl rfl
      · exact hobj 0 _ _ rfl rfl
      · exact hstr 0 _ _ rfl rfl
      · exact hdat 0 _ _ rfl rfl
    rw [if_neg c3]
    by_cases c4 : b ≤ 243
    · rw [if_pos c4]
      rcases DataView.getUint16_cases d.dataView (d.offset + 1) with h1 | ⟨v, h1, _⟩
      · rw [h1]; exact Decoder.advances_error 1 d _ (by intro h; cases h)
      · rw [h1]; dsimp only
        by_cases e0 : b = 240
        · rw [if_pos e0]; exact harr 2 _ _ rfl rfl
        rw [if_neg e0]
        by_cases e1 : b = 241
        · rw [if_pos e1]; exact hobj 2 _ _ rfl rfl
        rw [if_neg e1]
        by_cases e2 : b = 242
        · rw [if_pos e2]; exact hstr 2 _ _ rfl rfl
        rw [if_neg e2]
        exact hdat 2 _ _ rfl rfl
    rw [if_neg c4]
    by_cases c5 : b ≤ 247
    · rw [if_pos c5]
      rcases DataView.getUint16_cases d.dataView (d.offset + 1) with h1 | ⟨v, h1, _⟩
      · rw [h1]; exact Decoder.advances_error 1 d _ (by intro h; cases h)
      · rw [h1]; dsimp only
        rcases DataView.getUint32_cases d.dataView (d.offset + 1 + 2) with h2 | ⟨w, h2, _⟩
        · rw [h2]; exact Decoder.advances_error 1 d _ (by intro h; cases h)
        · rw [h2]; dsimp only
          by_cases e0 : b = 244
          · rw [if_pos e0]; exact harr 6 _ _ rfl rfl
          rw [if_neg e0]
          by_cases e1 : b = 245
          · rw [if_pos e1]; exact hobj 6 _ _ rfl rfl
          rw [if_neg e1]
          by_cases e2 : b = 246
          · rw [if_pos e2]; exact hstr 6 _ _ rfl rfl
          rw [if_neg e2]
          exact hdat 6 _ _ rfl rfl
    rw [if_neg c5]
    by_cases c6 : b = 248
    · rw [if_pos c6]
      rcases DataView.getUint32_cases d.dataView (d.offset + 1) with h1 | ⟨v, h1, _⟩
      · rw [h1]; exact Decoder.advances_error 1 d _ (by intro h; cases h)
      · rw [h1]; exact Decoder.advances_ok 1 d _ _ (by simp) rfl
    rw [if_neg c6]
    by_cases c7 : b = 249
    · rw [if_pos c7]
      rcases DataView.getUint32_cases d.dataView (d.offset + 1) with h1 | ⟨v, h1, _⟩
      · rw [h1]; exact Decoder.advances_error 1 d _ (by intro h; cases h)
      · rw [h1]; exact Decoder.advances_ok 1 d _ _ (by simp) rfl
    rw [if_neg c7]
    by_cases c8 : b = 250
    · rw [if_pos c8]
      rcases DataView.getUint64_cases d.dataView (d.offset + 1) with h1 | ⟨v, h1, _⟩
      · rw [h1]; exact Decoder.advances_error 1 d _ (by intro h; cases h)
      · rw [h1]; exact Decoder.advances_ok 1 d _ _ (by simp) rfl
    rw [if_neg c8]
    by_cases c9 : b = 251
    · rw [if_pos c9]; exact Decoder.advances_error 1 d _ (by intro h; cases h)
    rw [if_neg c9]
    by_cases c10 : b = 252
    · rw [if_pos c10]; exact Decoder.advances_ok 1 d _ _ (by simp) rfl
    rw [if_neg c10]
    by_cases c11 : b = 253
    · rw [if_pos c11]; exact Decoder.advances_ok 1 d _ _ (by simp) rfl
    rw [if_neg c11]
    by_cases c12 : b = 254
    · rw [if_pos c12]; exact Decoder.advances_ok 1 d _ _ (by simp) rfl
    rw [if_neg c12]
    exact Decoder.advances_error 1 d _ (by intro h; cases h)

/-- Three units of fuel for every remaining byte suffice at every fuel. -/
theorem Decoder.fuelSuffices (n : Nat) : Decoder.FuelSuffices n := by
  induction n with
  | zero =>
    refine ⟨?_, ?_, ?_, ?_, ?_, ?_⟩
    · intro d h; omega
    · intro d count h
      rcases h with h | h
      · omega
      · subst h
        rw [Decoder.decodeElements_zero]
        exact Decoder.advances_ok 0 d d _ (by omega) rfl
    · intro d count result h
      rcases h with h | h
      · omega
      · subst h
        rw [Decoder.decodeFields_zero]
        exact Decoder.advances_ok 0 d d _ (by omega) rfl
    · intro d len h; omega
    · intro d len h; omega
    · intro d len h; omega
  | succ n ih =>
    exact ⟨fun d h => Decoder.fuelSuffices_value ih d h,
      fun d count h => Decoder.fuelSuffices_elements ih d count h,
      fun d count result h => Decoder.fuelSuffices_fields ih d count result h,
      fun d len h => Decoder.fuelSuffices_data ih d len h,
      fun d len h => Decoder.fuelSuffices_array ih d len h,
      fun d len h => Decoder.fuelSuffices_object ih d len h⟩


theorem Decoder.newOutcome_bind {α : Type} (view : DataView) (x : Except DecoderFailure α)
    (f : α → Except DecoderFailure Decoder)
    (hx : x = .error .rangeError ∨ ∃ v, x = .ok v)
    (hf : ∀ v, Decoder.NewOutcome view (f v)) : Decoder.NewOutcome view (x >>= f) := by
  rcases hx with hx | ⟨v, hx⟩
  · rw [hx]
    exact Or.inl ⟨_, rfl, by intro h; cases h⟩
  · rw [hx]
    exact hf v

theorem Decoder.newOutcome_ite (view : DataView) (c : Prop) [Decidable c]
    (a b : Except DecoderFailure Decoder)
    (ha : Decoder.NewOutcome view a) (hb : Decoder.NewOutcome view b) :
    Decoder.NewOutcome view (if c then a else b) := by
  split
  · exact ha
  · exact hb

theorem Decoder.newOutcome_throw (view : DataView) (err : DecoderFailure)
    (h : err ≠ .outOfFuel) :
    Decoder.NewOutcome view (throw err) :=
  Or.inl ⟨err, rfl, h⟩

theorem DataView.getUint8_outcome (v : DataView) (i : Nat) :
    v.getUint8 i = .error .rangeError ∨ ∃ b, v.getUint8 i = .ok b := by
  rcases DataView.getUint8_cases v i with ⟨h, _⟩ | ⟨b, h, _⟩
  · exact Or.inl h
  · exact Or.inr ⟨b, h⟩

theorem DataView.getUint16_outcome (v : DataView) (i : Nat) :
    v.getUint16 i = .error .rangeError ∨ ∃ b, v.getUint16 i = .ok b := by
  rcases DataView.getUint16_cases v i with h | ⟨b, h, _⟩
  · exact Or.inl h
  · exact Or.inr ⟨b, h⟩

theorem Decoder.expectByte_outcome (d : Decoder) (extraOffset expected : Nat) :
    (∃ err, d.expectByte extraOffset expected = .error err ∧ err ≠ .outOfFuel) ∨
    d.expectByte extraOffset expected = .ok () := by
  unfold Decoder.expectByte Decoder._byte
  rcases DataView.getUint8_outcome d.dataView (d.offset + extraOffset) with h | ⟨b, h⟩
  · rw [h]
    exact Or.inl ⟨_, rfl, by intro h; cases h⟩
  · rw [h]
    by_cases hb : b ≠ expected
    · exact Or.inl ⟨.decoderError d.offset, by simp [bind, Except.bind, hb]; rfl,
        by intro h; cases h⟩
    · exact Or.inr (by simp [bind, Except.bind, hb]; rfl)

theorem Decoder.newOutcome_expect (view : DataView) (d : Decoder) (extraOffset expected : Nat)
    (f : Unit → Except DecoderFailure Decoder)
    (hf : Decoder.NewOutcome view (f ())) :
    Decoder.NewOutcome view (d.expectByte extraOffset expected >>= f) := by
  rcases Decoder.expectByte_outcome d extraOffset expected with ⟨err, h, hne⟩ | h
  · rw [h]
    exact Or.inl ⟨err, rfl, hne⟩
  · rw [h]
    exact hf

theorem Decoder.new_cases (view : DataView) (D : List String) :
    Decoder.NewOutcome view (Decoder.new view D) := by
  unfold Decoder.new
  refine Decoder.newOutcome_expect view _ _ _ _ ?_
  refine Decoder.newOutcome_expect view _ _ _ _ ?_
  refine Decoder.newOutcome_expect view _ _ _ _ ?_
  refine Decoder.newOutcome_expect view _ _ _ _ ?_
  refine Decoder.newOutcome_expect view _ _ _ _ ?_
  refine Decoder.newOutcome_expect view _ _ _ _ ?_
  refine Decoder.newOutcome_bind view _ _ (DataView.getUint16_outcome _ _) (fun size => ?_)
  refine Decoder.newOutcome_ite view _ _ _
    (Decoder.newOutcome_throw view _ (by intro h; cases h)) ?_
  refine Decoder.newOutcome_ite view _ _ _
    (Decoder.newOutcome_throw view _ (by intro h; cases h)) ?_
  exact Or.inr ⟨_, rfl, rfl, rfl⟩

/-- The fuel `Decoder.decode` supplies is never exhausted: the model of a run of the
decoder ends in a value or in one of the exceptions of the code. -/
theorem Decoder.run_ne_outOfFuel (view : DataView) (D : List String) :
    Decoder.run view D ≠ .error .outOfFuel := by
  unfold Decoder.run
  rcases Decoder.new_cases view D with ⟨err, h, hne⟩ | ⟨d, h, hv, ho⟩
  · rw [h]
    intro h'
    simp only [bind, Except.bind] at h'
    cases h'
    exact hne rfl
  · rw [h]
    simp only [bind, Except.bind]
    refine ((Decoder.fuelSuffices _).1 d ?_).1
    unfold Decoder.remaining
    rw [hv]
    omega

theorem Decoder.decode_ne_outOfFuel (view : DataView) (D : List String) :
    Decoder.decode view D ≠ .error .outOfFuel := by
  unfold Decoder.decode
  intro h
  cases hr : Decoder.run view D with
  | error err =>
    rw [hr] at h
    simp only [bind, Except.bind] at h
    cases h
    exact Decoder.run_ne_outOfFuel view D hr
  | ok r =>
    rw [hr] at h
    simp [bind, Except.bind, pure, Except.pure] at h

/-! ## The header checks and the reserved tags -/

/-- The constructor on a view of at least eight bytes, as a chain of comparisons. -/
theorem Decoder.new_eq (view : DataView) (D : List String) (h : 8 ≤ view.byteLength) :
    Decoder.new view D
      = if view.buffer.byteAt view.byteOffset ≠ 211 then .error (.decoderError 0)
        else if view.buffer.byteAt (view.byteOffset + 1) ≠ 74 then .error (.decoderError 0)
        else if view.buffer.byteAt (view.byteOffset + 2) ≠ 82 then .error (.decoderError 0)
        else if view.buffer.byteAt (view.byteOffset + 3) ≠ 98 then .error (.decoderError 0)
        else if view.buffer.byteAt (view.byteOffset + 4) ≠ 1 then .error (.decoderError 4)
        else if view.buffer.byteAt (view.byteOffset + 5) ≠ 0 then .error (.decoderError 5)
        else if view.buffer.byteAt (view.byteOffset + 6) * 256
            + view.buffer.byteAt (view.byteOffset + 7) > 2048 then .error .referenceError
        else if view.buffer.byteAt (view.byteOffset + 6) * 256
            + view.buffer.byteAt (view.byteOffset + 7) > D.length then
          .error (.decoderError 6)
        else .ok { dataView := view, offset := 8,
                   staticDictionary := D.take (view.buffer.byteAt (view.byteOffset + 6) * 256
                      + view.buffer.byteAt (view.byteOffset + 7)),
                   dynamicDictionary := fun _ => "", dynamicDictionaryOffset := 0 } := by
  have e1 : (0 : Nat) + 0 + 1 ≤ view.byteLength := by omega
  have e2 : (0 : Nat) + 1 + 1 ≤ view.byteLength := by omega
  have e3 : (0 : Nat) + 2 + 1 ≤ view.byteLength := by omega
  have e4 : (0 : Nat) + 3 + 1 ≤ view.byteLength := by omega
  have e5 : (0 : Nat) + 4 + 0 + 1 ≤ view.byteLength := by omega
  have e6 : (0 : Nat) + 4 + 1 + 0 + 1 ≤ view.byteLength := by omega
  have e7 : (0 : Nat) + 4 + 1 + 1 + 2 ≤ view.byteLength := by omega
  have a2 : view.byteOffset + 6 + 1 = view.byteOffset + 7 := by omega
  simp only [Decoder.new, Decoder.expectByte, Decoder._byte, DataView.getUint8,
    DataView.getUint16, bind, Except.bind, pure, Except.pure, if_pos e1, if_pos e2, if_pos e3,
    if_pos e4, if_pos e5, if_pos e6, if_pos e7, throw, throwThe, MonadExceptOf.throw,
    Nat.zero_add, Nat.add_zero, Nat.reduceAdd, a2]
  by_cases c0 : view.buffer.byteAt view.byteOffset = 211
  swap
  · simp [c0]
  by_cases c1 : view.buffer.byteAt (view.byteOffset + 1) = 74
  swap
  · simp [c0, c1]
  by_cases c2 : view.buffer.byteAt (view.byteOffset + 2) = 82
  swap
  · simp [c0, c1, c2]
  by_cases c3 : view.buffer.byteAt (view.byteOffset + 3) = 98
  swap
  · simp [c0, c1, c2, c3]
  by_cases c4 : view.buffer.byteAt (view.byteOffset + 4) = 1
  swap
  · simp [c0, c1, c2, c3, c4]
  by_cases c5 : view.buffer.byteAt (view.byteOffset + 5) = 0
  swap
  · simp [c0, c1, c2, c3, c4, c5]
  simp [c0, c1, c2, c3, c4, c5]

theorem Decoder.decodeValue_reserved (d : Decoder) (fuel tag : Nat)
    (ht : tag = 251 ∨ tag = 255) (h : d._byte 0 = .ok tag) :
    d.decodeValue (fuel + 1) = .error (.decoderError d.offset) := by
  rw [Decoder.decodeValue]
  simp only [h, bind, Except.bind]
  rcases ht with rfl | rfl
  · simp
  · simp

theorem Decoder.decodeValue_array_of_one (d : Decoder) (fuel : Nat) (h : d._byte 0 = .ok 209) :
    d.decodeValue (fuel + 1) = Decoder._decodeArray fuel { d with offset := d.offset + 1 } 1 := by
  rw [Decoder.decodeValue]
  simp only [h, bind, Except.bind]
  rfl

/-- A reserved tag below `k` nested arrays of one element is reported at its own offset. -/
theorem Decoder.decodeValue_nested_reserved (tag : Nat) (ht : tag = 251 ∨ tag = 255) :
    ∀ (k : Nat) (d : Decoder) (fuel : Nat), 3 * k + 1 ≤ fuel →
      (∀ i, i < k → d._byte i = .ok 209) → d._byte k = .ok tag →
      d.decodeValue fuel = .error (.decoderError (d.offset + k)) := by
  intro k
  induction k with
  | zero =>
    intro d fuel hf _ hk
    obtain ⟨f, rfl⟩ : ∃ f, fuel = f + 1 := ⟨fuel - 1, by omega⟩
    exact Decoder.decodeValue_reserved d f tag ht hk
  | succ k ih =>
    intro d fuel hf hi hk
    obtain ⟨f, rfl⟩ : ∃ f, fuel = f + 3 := ⟨fuel - 3, by omega⟩
    rw [Decoder.decodeValue_array_of_one d (f + 2) (hi 0 (by omega)), Decoder.decodeArray_succ]
    have hlen : ¬ ((1 : Int) < 0 ∨ 4294967296 ≤ (1 : Int)) := by decide
    rw [if_neg hlen]
    have h1 : (1 : Int).toNat = 0 + 1 := rfl
    rw [h1, Decoder.decodeElements_succ]
    have := ih { d with offset := d.offset + 1 } f (by omega)
      (fun i hlt => by
        have := hi (i + 1) (by omega)
        simp only [Decoder._byte] at this ⊢
        rw [← this]; congr 1; omega)
      (by
        simp only [Decoder._byte] at hk ⊢
        rw [← hk]; congr 1; omega)
    rw [this]
    simp only [bind, Except.bind]
    rw [Nat.add_assoc, Nat.add_comm 1 k]

theorem list_getD_nested (pre rest : List Nat) (k tag : Nat) :
    (∀ i, i < k → (pre ++ List.replicate k 209 ++ [tag] ++ rest).getD (pre.length + i) 0 = 209) ∧
    (pre ++ List.replicate k 209 ++ [tag] ++ rest).getD (pre.length + k) 0 = tag := by
  refine ⟨fun i hi => ?_, ?_⟩
  · rw [List.append_assoc, List.append_assoc, List.getD_append_right _ _ _ _ (by omega)]
    simp only [Nat.add_sub_cancel_left]
    rw [List.getD_append _ _ _ _ (by simpa using hi)]
    simp [List.getD_eq_getElem?_getD, hi]
  · rw [List.append_assoc, List.append_assoc, List.getD_append_right _ _ _ _ (by omega)]
    simp only [Nat.add_sub_cancel_left]
    rw [List.getD_append_right _ _ _ _ (by simp)]
    simp

/-! ## Decoding over a view and over an extension of it -/

theorem DataView.Extends.getUint8 {vl vs : DataView} (h : vl.Extends vs) (i : Nat) :
    vs.getUint8 i = .error .rangeError ∨
    ∃ b, vs.getUint8 i = .ok b ∧ vl.getUint8 i = .ok b ∧ i + 1 ≤ vs.byteLength := by
  obtain ⟨h1, h2, _, _, h5, h6⟩ := h
  unfold DataView.getUint8
  by_cases c : i + 1 ≤ vs.byteLength
  · refine Or.inr ⟨_, if_pos c, ?_, c⟩
    rw [if_pos (by omega), h1, h2, Nat.zero_add, h6 i (by omega)]
  · exact Or.inl (if_neg c)

theorem DataView.Extends.getUint16 {vl vs : DataView} (h : vl.Extends vs) (i : Nat) :
    vs.getUint16 i = .error .rangeError ∨
    ∃ b, vs.getUint16 i = .ok b ∧ vl.getUint16 i = .ok b ∧ i + 2 ≤ vs.byteLength := by
  obtain ⟨h1, h2, _, _, h5, h6⟩ := h
  unfold DataView.getUint16
  by_cases c : i + 2 ≤ vs.byteLength
  · refine Or.inr ⟨_, if_pos c, ?_, c⟩
    rw [if_pos (by omega), h1, h2, Nat.zero_add, h6 i (by omega), h6 (i + 1) (by omega)]
  · exact Or.inl (if_neg c)

theorem DataView.Extends.getUint32 {vl vs : DataView} (h : vl.Extends vs) (i : Nat) :
    vs.getUint32 i = .error .rangeError ∨
    ∃ b, vs.getUint32 i = .ok b ∧ vl.getUint32 i = .ok b ∧ i + 4 ≤ vs.byteLength := by
  obtain ⟨h1, h2, _, _, h5, h6⟩ := h
  unfold DataView.getUint32
  by_cases c : i + 4 ≤ vs.byteLength
  · refine Or.inr ⟨_, if_pos c, ?_, c⟩
    rw [if_pos (by omega), h1, h2, Nat.zero_add, h6 i (by omega), h6 (i + 1) (by omega),
      h6 (i + 2) (by omega), h6 (i + 3) (by omega)]
  · exact Or.inl (if_neg c)

theorem DataView.Extends.getUint64 {vl vs : DataView} (h : vl.Extends vs) (i : Nat) :
    vs.getUint64 i = .error .rangeError ∨
    ∃ b, vs.getUint64 i = .ok b ∧ vl.getUint64 i = .ok b ∧ i + 8 ≤ vs.byteLength := by
  unfold DataView.getUint64
  rcases h.getUint32 i with e1 | ⟨hi, e1, e1l, _⟩
  · exact Or.inl (by simp [e1, bind, Except.bind])
  · rcases h.getUint32 (i + 4) with e2 | ⟨lo, e2, e2l, hb⟩
    · exact Or.inl (by simp [e1, e2, bind, Except.bind])
    · exact Or.inr ⟨hi * 4294967296 + lo,
        by simp [e1, e2, bind, Except.bind, pure, Except.pure],
        by simp [e1l, e2l, bind, Except.bind, pure, Except.pure], by omega⟩

theorem DataView.Extends.view {vl vs : DataView} (h : vl.Extends vs) (o : Nat) (len : Int) :
    vs.buffer.view o len = .error .rangeError ∨
    ∃ bs, vs.buffer.view o len = .ok bs ∧ vl.buffer.view o len = .ok bs ∧
      o + len.toNat ≤ vs.byteLength := by
  obtain ⟨h1, h2, h3, h4, h5, h6⟩ := h
  unfold ArrayBuffer.view
  by_cases c1 : len < 0
  · exact Or.inl (if_pos c1)
  · rw [if_neg c1, if_neg c1]
    by_cases c2 : vs.buffer.byteLength < o + len.toNat
    · exact Or.inl (if_pos c2)
    · rw [if_neg c2, if_neg (by omega)]
      refine Or.inr ⟨_, rfl, ?_, by omega⟩
      congr 1
      unfold ArrayBuffer.slice
      apply List.map_congr_left
      intro i hi
      rw [List.mem_range] at hi
      exact (h6 (o + i) (by omega)).symm

theorem Decoder.truncates_range {α : Type} (vs vl : DataView)
    (x : Except DecoderFailure (α × Decoder)) :
    Decoder.Truncates vs vl (.error .rangeError) x :=
  Or.inr (Or.inr (Or.inl rfl))

theorem Decoder.truncates_error {α : Type} (vs vl : DataView) (e : DecoderFailure) :
    Decoder.Truncates vs vl (.error e : Except DecoderFailure (α × Decoder)) (.error e) :=
  Or.inr (Or.inr (Or.inr (Or.inl ⟨e, rfl, rfl⟩)))

theorem Decoder.truncates_ok {α : Type} (vs vl : DataView) (a : α) (d : Decoder)
    (h : d.offset ≤ vs.byteLength) :
    Decoder.Truncates vs vl (.ok (a, d.withView vs)) (.ok (a, d.withView vl)) :=
  Or.inr (Or.inr (Or.inr (Or.inr ⟨a, d, rfl, rfl, h⟩)))

/-- Sequencing: the second step starts in the states the first step ends in. -/
theorem Decoder.truncates_bind {α β : Type} {vs vl : DataView}
    {y x : Except DecoderFailure (α × Decoder)}
    {g f : α × Decoder → Except DecoderFailure (β × Decoder)}
    (h : Decoder.Truncates vs vl y x)
    (hf : ∀ (a : α) (d : Decoder), d.offset ≤ vs.byteLength →
      Decoder.Truncates vs vl (g (a, d.withView vs)) (f (a, d.withView vl))) :
    Decoder.Truncates vs vl (y >>= g) (x >>= f) := by
  rcases h with h | h | h | ⟨e, h1, h2⟩ | ⟨a, d, h1, h2, h3⟩
  · subst h; exact Or.inl rfl
  · subst h; exact Or.inr (Or.inl rfl)
  · subst h; exact Or.inr (Or.inr (Or.inl rfl))
  · subst h1; subst h2; exact Or.inr (Or.inr (Or.inr (Or.inl ⟨e, rfl, rfl⟩)))
  · subst h1; subst h2; exact hf a d h3

theorem Decoder.truncates_map {α β : Type} {vs vl : DataView}
    {y x : Except DecoderFailure (α × Decoder)} (g : α → β)
    (h : Decoder.Truncates vs vl y x) :
    Decoder.Truncates vs vl (y >>= fun r => pure (g r.1, r.2))
      (x >>= fun r => pure (g r.1, r.2)) :=
  Decoder.truncates_bind h (fun a d hd => Decoder.truncates_ok vs vl (g a) d hd)

theorem Decoder.truncates_decodeString {vs vl : DataView} (h : vl.Extends vs) (d : Decoder)
    (len : Int) :
    Decoder.Truncates vs vl ((d.withView vs)._decodeString len)
      ((d.withView vl)._decodeString len) := by
  unfold Decoder._decodeString
  rcases h.view d.offset len with e | ⟨bs, e1, e2, hb⟩
  · have : (d.withView vs).dataView.buffer.view (d.withView vs).offset len
        = .error .rangeError := e
    rw [this]
    exact Decoder.truncates_range vs vl _
  · have h1 : (d.withView vs).dataView.buffer.view (d.withView vs).offset len = .ok bs := e1
    have h2 : (d.withView vl).dataView.buffer.view (d.withView vl).offset len = .ok bs := e2
    rw [h1, h2]
    simp only [bind, Except.bind]
    by_cases c : 0 < utf16Length (textDecode bs) ∧ utf16Length (textDecode bs) ≤ 128
    · rw [if_pos c, if_pos c]
      exact Decoder.truncates_ok vs vl _
        { d with
          offset := d.offset + len.toNat
          dynamicDictionary := fun x => if x = d.dynamicDictionaryOffset then textDecode bs
            else d.dynamicDictionary x
          dynamicDictionaryOffset := (jsAnd (d.dynamicDictionaryOffset + 1) 127).toNat } hb
    · rw [if_neg c, if_neg c]
      exact Decoder.truncates_ok vs vl _ { d with offset := d.offset + len.toNat } hb

theorem Decoder.truncatesAt_array {vs vl : DataView} {n : Nat}
    (ih : Decoder.TruncatesAt vs vl n) (m : Nat) (d : Decoder) (len : Int)
    (hd : d.offset ≤ vs.byteLength) :
    Decoder.Truncates vs vl (Decoder._decodeArray m (d.withView vs) len)
      (Decoder._decodeArray (n + 1) (d.withView vl) len) := by
  cases m with
  | zero => exact Or.inl rfl
  | succ m =>
    rw [Decoder.decodeArray_succ, Decoder.decodeArray_succ]
    by_cases c : len < 0 ∨ 4294967296 ≤ len
    · rw [if_pos c, if_pos c]
      exact Decoder.truncates_range vs vl _
    · rw [if_neg c, if_neg c]
      exact Decoder.truncates_map Value.array (ih.2.1 m d _ hd)

theorem Decoder.truncatesAt_object {vs vl : DataView} {n : Nat}
    (ih : Decoder.TruncatesAt vs vl n) (m : Nat) (d : Decoder) (len : Int)
    (hd : d.offset ≤ vs.byteLength) :
    Decoder.Truncates vs vl (Decoder._decodeObject m (d.withView vs) len)
      (Decoder._decodeObject (n + 1) (d.withView vl) len) := by
  cases m with
  | zero => exact Or.inl rfl
  | succ m =>
    rw [Decoder.decodeObject_succ, Decoder.decodeObject_succ]
    exact Decoder.truncates_map Value.object (ih.2.2.1 m d _ [] hd)

theorem Decoder.truncatesAt_elements {vs vl : DataView} {n : Nat}
    (ih : Decoder.TruncatesAt vs vl n) (m : Nat) (d : Decoder) (count : Nat)
    (hd : d.offset ≤ vs.byteLength) :
    Decoder.Truncates vs vl (Decoder.decodeElements m (d.withView vs) count)
      (Decoder.decodeElements (n + 1) (d.withView vl) count) := by
  cases count with
  | zero =>
    rw [Decoder.decodeElements_zero, Decoder.decodeElements_zero]
    exact Decoder.truncates_ok vs vl _ d hd
  | succ count =>
    cases m with
    | zero => exact Or.inl rfl
    | succ m =>
      rw [Decoder.decodeElements_succ, Decoder.decodeElements_succ]
      refine Decoder.truncates_bind (ih.1 m d) (fun v d1 h1 => ?_)
      exact Decoder.truncates_map (fun rest => v :: rest) (ih.2.1 m d1 count h1)

theorem Decoder.truncatesAt_fields {vs vl : DataView} {n : Nat}
    (ih : Decoder.TruncatesAt vs vl n) (m : Nat) (d : Decoder) (count : Nat)
    (result : List (String × Value)) (hd : d.offset ≤ vs.byteLength) :
    Decoder.Truncates vs vl (Decoder.decodeFields m (d.withView vs) count result)
      (Decoder.decodeFields (n + 1) (d.withView vl) count result) := by
  cases count with
  | zero =>
    rw [Decoder.decodeFields_zero, Decoder.decodeFields_zero]
    exact Decoder.truncates_ok vs vl _ d hd
  | succ count =>
    cases m with
    | zero => exact Or.inl rfl
    | succ m =>
      rw [Decoder.decodeFields_succ, Decoder.decodeFields_succ]
      refine Decoder.truncates_bind (ih.1 m d) (fun f d1 h1 => ?_)
      cases f with
      | string name =>
        refine Decoder.truncates_bind (ih.1 m d1) (fun v d2 h2 => ?_)
        exact ih.2.2.1 m d2 count _ h2
      | null => exact Decoder.truncates_error vs vl _
      | bool _ => exact Decoder.truncates_error vs vl _
      | number _ => exact Decoder.truncates_error vs vl _
      | array _ => exact Decoder.truncates_error vs vl _
      | object _ => exact Decoder.truncates_error vs vl _

theorem Decoder.truncatesAt_data {vs vl : DataView} (h : vl.Extends vs) {n : Nat}
    (ih : Decoder.TruncatesAt vs vl n) (m : Nat) (d : Decoder) (len : Int) :
    Decoder.Truncates vs vl (Decoder._decodeData m (d.withView vs) len)
      (Decoder._decodeData (n + 1) (d.withView vl) len) := by
  cases m with
  | zero => exact Or.inl rfl
  | succ m =>
    rw [Decoder.decodeData_succ, Decoder.decodeData_succ]
    refine Decoder.truncates_bind (ih.1 m d) (fun f d1 h1 => ?_)
    cases f with
    | string mediaType =>
      rcases h.view d1.offset len with e | ⟨bs, e1, e2, hb⟩
      · have : (d1.withView vs).dataView.buffer.view (d1.withView vs).offset len
            = .error .rangeError := e
        simp only [this, bind, Except.bind]
        exact Decoder.truncates_range vs vl _
      · have h1 : (d1.withView vs).dataView.buffer.view (d1.withView vs).offset len = .ok bs := e1
        have h2 : (d1.withView vl).dataView.buffer.view (d1.withView vl).offset len = .ok bs := e2
        simp only [h1, h2, bind, Except.bind, pure, Except.pure]
        exact Decoder.truncates_ok vs vl _ { d1 with offset := d1.offset + len.toNat } hb
    | null => exact Decoder.truncates_error vs vl _
    | bool _ => exact Decoder.truncates_error vs vl _
    | number _ => exact Decoder.truncates_error vs vl _
    | array _ => exact Decoder.truncates_error vs vl _
    | object _ => exact Decoder.truncates_error vs vl _

theorem Decoder.truncatesAt_value {vs vl : DataView} (h : vl.Extends vs) {n : Nat}
    (ih : Decoder.TruncatesAt vs vl n) (m : Nat) (d : Decoder) :
    Decoder.Truncates vs vl ((d.withView vs).decodeValue m)
      ((d.withView vl).decodeValue (n + 1)) := by
  cases m with
  | zero => exact Or.inl (by rw [Decoder.decodeValue])
  | succ m =>
    rw [Decoder.decodeValue, Decoder.decodeValue]
    rcases h.getUint8 (d.offset + 0) with e | ⟨b, e1, e2, hb⟩
    · have : (d.withView vs)._byte 0 = .error .rangeError := e
      rw [this]
      exact Decoder.truncates_range vs vl _
    · have h1 : (d.withView vs)._byte 0 = .ok b := e1
      have h2 : (d.withView vl)._byte 0 = .ok b := e2
      rw [h1, h2]
      simp only [bind, Except.bind]
      have hd1 : d.offset + 1 ≤ vs.byteLength := by omega
      have harr : ∀ (d1 : Decoder) (len : Int), d1.offset ≤ vs.byteLength →
          Decoder.Truncates vs vl (Decoder._decodeArray m (d1.withView vs) len)
            (Decoder._decodeArray n (d1.withView vl) len) :=
        fun d1 len hd => ih.2.2.2.2.1 m d1 len hd
      have hobj : ∀ (d1 : Decoder) (len : Int), d1.offset ≤ vs.byteLength →
          Decoder.Truncates vs vl (Decoder._decodeObject m (d1.withView vs) len)
            (Decoder._decodeObject n (d1.withView vl) len) :=
        fun d1 len hd => ih.2.2.2.2.2 m d1 len hd
      have hdat : ∀ (d1 : Decoder) (len : Int), d1.offset ≤ vs.byteLength →
          Decoder.Truncates vs vl (Decoder._decodeData m (d1.withView vs) len)
            (Decoder._decodeData n (d1.withView vl) len) :=
        fun d1 len hd => ih.2.2.2.1 m d1 len hd
      have hstr : ∀ (d1 : Decoder) (len : Int),
          Decoder.Truncates vs vl ((d1.withView vs)._decodeString len)
            ((d1.withView vl)._decodeString len) :=
        fun d1 len => Decoder.truncates_decodeString h d1 len
      have hok : ∀ (v : Value) (d1 : Decoder), d1.offset ≤ vs.byteLength →
          Decoder.Truncates vs vl (.ok (v, d1.withView vs)) (.ok (v, d1.withView vl)) :=
        fun v d1 hd => Decoder.truncates_ok vs vl v d1 hd
      by_cases c1 : b ≤ 127
      · rw [if_pos c1, if_pos c1]
        exact hok _ { d with offset := d.offset + 1 } hd1
      rw [if_neg c1, if_neg c1]
      by_cases c2 : b ≤ 191
      · rw [if_pos c2, if_pos c2]
        exact hok _ { d with offset := d.offset + 1 } hd1
      rw [if_neg c2, if_neg c2]
      by_cases c3 : b ≤ 239
      · rw [if_pos c3, if_pos c3]
        rcases jsUShr_tag b (by omega) c3 with t | t | t | t | t | t <;> rw [t] <;>
          try dsimp only
        · simp only [Decoder._byte, Decoder.withView]
          rcases h.getUint8 (d.offset + 1 + 0) with e | ⟨v, f1, f2, hv⟩
          · rw [e]
            exact Decoder.truncates_range vs vl _
          · rw [f1, f2]
            exact hok _ { d with offset := d.offset + 1 + 1 } (by simpa using hv)
        · simp only [Decoder._byte, Decoder.withView]
          rcases h.getUint8 (d.offset + 1 + 0) with e | ⟨v, f1, f2, hv⟩
          · rw [e]
            exact Decoder.truncates_range vs vl _
          · rw [f1, f2]
            exact hok _ { d with offset := d.offset + 1 + 1 } (by simpa using hv)
        · exact harr { d with offset := d.offset + 1 } _ hd1
        · exact hobj { d with offset := d.offset + 1 } _ hd1
        · exact hstr { d with offset := d.offset + 1 } _
        · exact hdat { d with offset := d.offset + 1 } _ hd1
      rw [if_neg c3, if_neg c3]
      by_cases c4 : b ≤ 243
      · rw [if_pos c4, if_pos c4]
        simp only [Decoder.withView]
        rcases h.getUint16 (d.offset + 1) with e | ⟨v, f1, f2, hv⟩
        · rw [e]
          exact Decoder.truncates_range vs vl _
        · rw [f1, f2]
          dsimp only
          have hd3 : d.offset + 1 + 2 ≤ vs.byteLength := by omega
          by_cases e0 : b = 240
          · rw [if_pos e0, if_pos e0]
            exact harr { d with offset := d.offset + 1 + 2 } _ hd3
          rw [if_neg e0, if_neg e0]
          by_cases e1 : b = 241
          · rw [if_pos e1, if_pos e1]
            exact hobj { d with offset := d.offset + 1 + 2 } _ hd3
          rw [if_neg e1, if_neg e1]
          by_cases e2 : b = 242
          · rw [if_pos e2, if_pos e2]
            exact hstr { d with offset := d.offset + 1 + 2 } _
          rw [if_neg e2, if_neg e2]
          exact hdat { d with offset := d.offset + 1 + 2 } _ hd3
      rw [if_neg c4, if_neg c4]
      by_cases c5 : b ≤ 247
      · rw [if_pos c5, if_pos c5]
        simp only [Decoder.withView]
        rcases h.getUint16 (d.offset + 1) with e | ⟨v, f1, f2, hv⟩
        · rw [e]
          exact Decoder.truncates_range vs vl _
        · rw [f1, f2]
          dsimp only
          rcases h.getUint32 (d.offset + 1 + 2) with e | ⟨w, g1, g2, hw⟩
          · rw [e]
            exact Decoder.truncates_range vs vl _
          · rw [g1, g2]
            dsimp only
            have hd7 : d.offset + 1 + 2 + 4 ≤ vs.byteLength := by omega
            by_cases e0 : b = 244
            · rw [if_pos e0, if_pos e0]
              exact harr { d with offset := d.offset + 1 + 2 + 4 } _ hd7
            rw [if_neg e0, if_neg e0]
            by_cases e1 : b = 245
            · rw [if_pos e1, if_pos e1]
              exact hobj { d with offset := d.offset + 1 + 2 + 4 } _ hd7
            rw [if_neg e1, if_neg e1]
            by_cases e2 : b = 246
            · rw [if_pos e2, if_pos e2]
              exact hstr { d with offset := d.offset + 1 + 2 + 4 } _
            rw [if_neg e2, if_neg e2]
            exact hdat { d with offset := d.offset + 1 + 2 + 4 } _ hd7
      rw [if_neg c5, if_neg c5]
      by_cases c6 : b = 248
      · rw [if_pos c6, if_pos c6]
        simp only [Decoder.withView]
        rcases h.getUint32 (d.offset + 1) with e | ⟨v, f1, f2, hv⟩
        · rw [e]
          exact Decoder.truncates_range vs vl _
        · rw [f1, f2]
          exact hok _ { d with offset := d.offset + 1 + 4 } hv
      rw [if_neg c6, if_neg c6]
      by_cases c7 : b = 249
      · rw [if_pos c7, if_pos c7]
        simp only [Decoder.withView]
        rcases h.getUint32 (d.offset + 1) with e | ⟨v, f1, f2, hv⟩
        · rw [e]
          exact Decoder.truncates_range vs vl _
        · rw [f1, f2]
          exact hok _ { d with offset := d.offset + 1 + 4 } hv
      rw [if_neg c7, if_neg c7]
      by_cases c8 : b = 250
      · rw [if_pos c8, if_pos c8]
        simp only [Decoder.withView]
        rcases h.getUint64 (d.offset + 1) with e | ⟨v, f1, f2, hv⟩
        · rw [e]
          exact Decoder.truncates_range vs vl _
        · rw [f1, f2]
          exact hok _ { d with offset := d.offset + 1 + 8 } hv
      rw [if_neg c8, if_neg c8]
      by_cases c9 : b = 251
      · rw [if_pos c9, if_pos c9]
        exact Decoder.truncates_error vs vl _
      rw [if_neg c9, if_neg c9]
      by_cases c10 : b = 252
      · rw [if_pos c10, if_pos c10]
        exact hok _ { d with offset := d.offset + 1 } hd1
      rw [if_neg c10, if_neg c10]
      by_cases c11 : b = 253
      · rw [if_pos c11, if_pos c11]
        exact hok _ { d with offset := d.offset + 1 } hd1
      rw [if_neg c11, if_neg c11]
      by_cases c12 : b = 254
      · rw [if_pos c12, if_pos c12]
        exact hok _ { d with offset := d.offset + 1 } hd1
      rw [if_neg c12, if_neg c12]
      exact Decoder.truncates_error vs vl _

/-- Decoding over a view and over an extension of it, at every fuel. -/
theorem Decoder.truncatesAt {vs vl : DataView} (h : vl.Extends vs) (n : Nat) :
    Decoder.TruncatesAt vs vl n := by
  induction n with
  | zero =>
    refine ⟨fun m d => Or.inr (Or.inl (by rw [Decoder.decodeValue])), ?_, ?_,
      fun m d len _ => Or.inr (Or.inl rfl), fun m d len _ => Or.inr (Or.inl rfl),
      fun m d len _ => Or.inr (Or.inl rfl)⟩
    · intro m d count hd
      cases count with
      | zero =>
        rw [Decoder.decodeElements_zero, Decoder.decodeElements_zero]
        exact Decoder.truncates_ok vs vl _ d hd
      | succ count => exact Or.inr (Or.inl rfl)
    · intro m d count result hd
      cases count with
      | zero =>
        rw [Decoder.decodeFields_zero, Decoder.decodeFields_zero]
        exact Decoder.truncates_ok vs vl _ d hd
      | succ count => exact Or.inr (Or.inl rfl)
  | succ n ih =>
    exact ⟨fun m d => Decoder.truncatesAt_value h ih m d,
      fun m d count hd => Decoder.truncatesAt_elements ih m d count hd,
      fun m d count result hd => Decoder.truncatesAt_fields ih m d count result hd,
      fun m d len _ => Decoder.truncatesAt_data h ih m d len,
      fun m d len hd => Decoder.truncatesAt_array ih m d len hd,
      fun m d len hd => Decoder.truncatesAt_object ih m d len hd⟩

theorem Decoder.newTruncates_expect {vs vl : DataView} (h : vl.Extends vs) (d : Decoder)
    (k expected : Nat) (g f : Unit → Except DecoderFailure Decoder)
    (hf : Decoder.NewTruncates vs vl (g ()) (f ())) :
    Decoder.NewTruncates vs vl ((d.withView vs).expectByte k expected >>= g)
      ((d.withView vl).expectByte k expected >>= f) := by
  unfold Decoder.expectByte
  rcases h.getUint8 (d.offset + k) with e | ⟨b, e1, e2, _⟩
  · have : (d.withView vs)._byte k = .error .rangeError := e
    rw [this]
    exact Or.inl rfl
  · have h1 : (d.withView vs)._byte k = .ok b := e1
    have h2 : (d.withView vl)._byte k = .ok b := e2
    rw [h1, h2]
    by_cases c : b ≠ expected
    · exact Or.inr (Or.inl ⟨.decoderError d.offset,
        by simp [bind, Except.bind, c, Decoder.withView],
        by simp [bind, Except.bind, c, Decoder.withView]⟩)
    · have e3 : ((Except.ok b : Except DecoderFailure Nat) >>= fun b =>
          if b ≠ expected then throw (.decoderError (d.withView vs).offset) else pure ())
          = .ok () := by simp [bind, Except.bind, c]; rfl
      have e4 : ((Except.ok b : Except DecoderFailure Nat) >>= fun b =>
          if b ≠ expected then throw (.decoderError (d.withView vl).offset) else pure ())
          = .ok () := by simp [bind, Except.bind, c]; rfl
      rw [e3, e4]
      exact hf

theorem Decoder.new_truncates {vs vl : DataView} (h : vl.Extends vs) (D : List String) :
    Decoder.NewTruncates vs vl (Decoder.new vs D) (Decoder.new vl D) := by
  unfold Decoder.new
  refine Decoder.newTruncates_expect h
    { dataView := vs, offset := 0, staticDictionary := D, dynamicDictionary := fun _ => "",
      dynamicDictionaryOffset := 0 } 0 211 _ _ ?_
  refine Decoder.newTruncates_expect h
    { dataView := vs, offset := 0, staticDictionary := D, dynamicDictionary := fun _ => "",
      dynamicDictionaryOffset := 0 } 1 74 _ _ ?_
  refine Decoder.newTruncates_expect h
    { dataView := vs, offset := 0, staticDictionary := D, dynamicDictionary := fun _ => "",
      dynamicDictionaryOffset := 0 } 2 82 _ _ ?_
  refine Decoder.newTruncates_expect h
    { dataView := vs, offset := 0, staticDictionary := D, dynamicDictionary := fun _ => "",
      dynamicDictionaryOffset := 0 } 3 98 _ _ ?_
  refine Decoder.newTruncates_expect h
    { dataView := vs, offset := 0 + 4, staticDictionary := D, dynamicDictionary := fun _ => "",
      dynamicDictionaryOffset := 0 } 0 1 _ _ ?_
  refine Decoder.newTruncates_expect h
    { dataView := vs, offset := 0 + 4 + 1, staticDictionary := D,
      dynamicDictionary := fun _ => "", dynamicDictionaryOffset := 0 } 0 0 _ _ ?_
  dsimp only
  rcases h.getUint16 (0 + 4 + 1 + 1) with e | ⟨size, e1, e2, hb⟩
  · rw [e]
    exact Or.inl rfl
  · rw [e1, e2]
    simp only [bind, Except.bind]
    by_cases c1 : size > 2048
    · rw [if_pos c1, if_pos c1]
      exact Or.inr (Or.inl ⟨_, rfl, rfl⟩)
    rw [if_neg c1, if_neg c1]
    by_cases c2 : size > D.length
    · rw [if_pos c2, if_pos c2]
      exact Or.inr (Or.inl ⟨_, rfl, rfl⟩)
    rw [if_neg c2, if_neg c2]
    exact Or.inr (Or.inr (Exists.intro
      { dataView := vs, offset := 0 + 4 + 1 + 1 + 2, staticDictionary := D.take size,
        dynamicDictionary := fun _ => "", dynamicDictionaryOffset := 0 }
      (And.intro rfl (And.intro rfl hb))))

/-- A run of the decoder over a view against the run over an extension of the view. -/
theorem Decoder.run_truncates {vs vl : DataView} (h : vl.Extends vs) (D : List String) :
    Decoder.Truncates vs vl (Decoder.run vs D) (Decoder.run vl D) := by
  unfold Decoder.run
  rcases Decoder.new_truncates h D with e | ⟨e, e1, e2⟩ | ⟨d, e1, e2, _⟩
  · rw [e]
    exact Decoder.truncates_range vs vl _
  · rw [e1, e2]
    exact Decoder.truncates_error vs vl e
  · rw [e1, e2]
    exact (Decoder.truncatesAt h _).1 _ d

theorem DataView.extends_append (B T : List Nat) :
    (DataView.ofBytes (B ++ T)).Extends (DataView.ofBytes B) := by
  refine ⟨rfl, rfl, rfl, rfl, by simp [DataView.ofBytes], ?_⟩
  intro i hi
  simp only [DataView.ofBytes, ArrayBuffer.byteAt] at hi ⊢
  rw [List.getD_append _ _ _ _ hi]

theorem DataView.extends_take (B : List Nat) (m : Nat) :
    (DataView.ofBytes B).Extends (DataView.ofBytes (B.take m)) := by
  have := DataView.extends_append (B.take m) (B.drop m)
  rwa [List.take_append_drop] at this

theorem Decoder.run_ok_of_decode {view : DataView} {D : List String} {V : Value}
    (h : Decoder.decode view D = .ok V) : ∃ d, Decoder.run view D = .ok (V, d) := by
  unfold Decoder.decode at h
  cases hr : Decoder.run view D with
  | error err => rw [hr] at h; cases h
  | ok r =>
    rw [hr] at h
    obtain ⟨v, d⟩ := r
    simp only [bind, Except.bind, pure, Except.pure, Except.ok.injEq] at h
    exact ⟨d, by rw [h]⟩

/-- A successful decoding is the decoding of every extension of the view. -/
theorem Decoder.decode_extends {vs vl : DataView} (h : vl.Extends vs) (D : List String)
    (V : Value) (hs : Decoder.decode vs D = .ok V) : Decoder.decode vl D = .ok V := by
  obtain ⟨ds, hr⟩ := Decoder.run_ok_of_decode hs
  rcases Decoder.run_truncates h D with e | e | e | ⟨e, e1, _⟩ | ⟨a, d, e1, e2, _⟩
  · rw [hr] at e; cases e
  · exact absurd e (Decoder.run_ne_outOfFuel vl D)
  · rw [hr] at e; cases e
  · rw [hr] at e1; cases e1
  · rw [hr] at e1
    cases e1
    simp [Decoder.decode, e2, bind, Except.bind, pure, Except.pure]

/-- A view that ends before the offset a successful run over an extension reaches gives a
`RangeError`. -/
theorem Decoder.decode_truncated {vs vl : DataView} (h : vl.Extends vs) (D : List String)
    (V : Value) (d : Decoder) (hl : Decoder.run vl D = .ok (V, d))
    (hm : vs.byteLength < d.offset) : Decoder.decode vs D = .error .rangeError := by
  have hne := Decoder.run_ne_outOfFuel vs D
  rcases Decoder.run_truncates h D with e | e | e | ⟨e, _, e2⟩ | ⟨a, d1, e1, e2, hd⟩
  · exact absurd e hne
  · rw [hl] at e; cases e
  · simp [Decoder.decode, e, bind, Except.bind]
  · rw [hl] at e2; cases e2
  · rw [hl] at e2
    cases e2
    simp only [Decoder.withView] at hm
    omega

/-- The loops and wrappers of the decoder pass on the exception of a nested call. -/
theorem Decoder.error_propagates (e : DecoderFailure) (fuel : Nat) (d : Decoder) :
    (∀ count, d.decodeValue fuel = .error e →
      Decoder.decodeElements (fuel + 1) d (count + 1) = .error e) ∧
    (∀ count v d1, d.decodeValue fuel = .ok (v, d1) →
      Decoder.decodeElements fuel d1 count = .error e →
      Decoder.decodeElements (fuel + 1) d (count + 1) = .error e) ∧
    (∀ count result, d.decodeValue fuel = .error e →
      Decoder.decodeFields (fuel + 1) d (count + 1) result = .error e) ∧
    (∀ count result name d1, d.decodeValue fuel = .ok (.string name, d1) →
      d1.decodeValue fuel = .error e →
      Decoder.decodeFields (fuel + 1) d (count + 1) result = .error e) ∧
    (∀ count result name d1 v d2, d.decodeValue fuel = .ok (.string name, d1) →
      d1.decodeValue fuel = .ok (v, d2) →
      Decoder.decodeFields fuel d2 count (objectSet result name v) = .error e →
      Decoder.decodeFields (fuel + 1) d (count + 1) result = .error e) ∧
    (∀ len, d.decodeValue fuel = .error e → Decoder._decodeData (fuel + 1) d len = .error e) ∧
    (∀ len : Int, 0 ≤ len → len < 4294967296 →
      Decoder.decodeElements fuel d len.toNat = .error e →
      Decoder._decodeArray (fuel + 1) d len = .error e) ∧
    (∀ len : Int, Decoder.decodeFields fuel d len.toNat [] = .error e →
      Decoder._decodeObject (fuel + 1) d len = .error e) := by
  refine ⟨?_, ?_, ?_, ?_, ?_, ?_, ?_, ?_⟩
  · intro count h
    rw [Decoder.decodeElements_succ, h]; rfl
  · intro count v d1 h h1
    rw [Decoder.decodeElements_succ, h]
    simp only [bind, Except.bind, h1]
  · intro count result h
    rw [Decoder.decodeFields_succ, h]; rfl
  · intro count result name d1 h h1
    rw [Decoder.decodeFields_succ, h]
    simp only [bind, Except.bind, h1]
  · intro count result name d1 v d2 h h1 h2
    rw [Decoder.decodeFields_succ, h]
    simp only [bind, Except.bind, h1, h2]
  · intro len h
    rw [Decoder.decodeData_succ, h]; rfl
  · intro len h0 h1 h
    rw [Decoder.decodeArray_succ, if_neg (by omega), h]; rfl
  · intro len h
    rw [Decoder.decodeObject_succ, h]; rfl

/-! ## The claims -/

/-- Claim C3: for an integer `v` with `-16 ≤ v ≤ 47`, `Encoder._encodeNumber` appends
exactly the one byte `0x80 + (v + 16)`, which lies in `0x80..0xBF` (on an encoder whose
offset lies within its non-empty buffer, as in every reachable state by
`Encoder.Reachable.fits`); `Decoder.decodeValue` on a tag byte `b` in `0x80..0xBF`
consumes that byte and returns `b - 0x80 - 16`; and decoding the encoding of `v`, under
any static dictionary of at most 2048 strings, returns `v`. -/
theorem inline_integer_encoding (v : Int) (h1 : -16 ≤ v) (h2 : v ≤ 47) :
    (∀ e : Encoder, e.offset ≤ e.capacity → 0 < e.capacity →
      ∃ e', e._encodeNumber (.fin v 0) = .ok e' ∧
        e'.bytes = e.bytes ++ [(128 + (v + 16)).toNat] ∧
        128 ≤ (128 + (v + 16)).toNat ∧ (128 + (v + 16)).toNat ≤ 191) ∧
    (∀ (d : Decoder) (fuel b : Nat), 128 ≤ b → b ≤ 191 → d._byte 0 = .ok b →
      d.decodeValue (fuel + 1)
        = .ok (.number (.fin ((b : Int) - 128 - 16) 0), { d with offset := d.offset + 1 })) ∧
    (∀ D : List String, D.length ≤ 2048 →
      roundTrip (.number (.fin v 0)) D = .ok (.number (.fin v 0))) := by
  refine ⟨?_, ?_, ?_⟩
  · intro e h3 h4
    exact ⟨_, Encoder.encodeNumber_inline e v h1 h2 h3 h4, rfl, by omega, by omega⟩
  · intro d fuel b hb1 hb2 h
    exact Decoder.decodeValue_inline d fuel b hb1 hb2 h
  · intro D hD
    exact roundTrip_inline v h1 h2 D hD

theorem inline_integer_encoding_witness :
    (-16 : Int) ≤ 47 ∧ roundTrip (.number (.fin 47 0)) ["a"] = .ok (.number (.fin 47 0)) :=
  ⟨by decide, (inline_integer_encoding 47 (by decide) (by decide)).2.2 ["a"] (by decide)⟩

/-- Claim C1 (refuted on the code): the number 1.5 does not survive the round trip. With an
empty static dictionary `Encoder.encode` writes the header and the single byte 0x91, and
`Decoder.decode` of that buffer returns the number 1. -/
theorem roundTrip_one_and_a_half :
    (Encoder.encode (.number (.fin 3 1)) []).map DataView.toBytes
      = .ok [211, 74, 82, 98, 1, 0, 0, 0, 145] ∧
    roundTrip (.number (.fin 3 1)) [] = .ok (.number (.fin 1 0)) ∧
    Value.number (.fin 1 0) ≠ Value.number (.fin 3 1) := by
  refine ⟨by decide!, by decide!, by decide⟩

/-- Claim C2 (refuted on the code): the condition of `_encodeNumber` holds for every
number but NaN (`Encoder.encodeNumber_one_byte`), so 1.5, 48 and -17 are each written as
one byte (0x91, 0xC0 and 0xFF) and not as the tag 0xFA followed by eight bytes; only NaN
is written as 0xFA and a 64-bit float. -/
theorem encodeNumber_out_of_range_one_byte :
    ((Encoder.fresh [])._encodeNumber (.fin 3 1)).map Encoder.bytes = .ok [145] ∧
    ((Encoder.fresh [])._encodeNumber (.fin 48 0)).map Encoder.bytes = .ok [192] ∧
    ((Encoder.fresh [])._encodeNumber (.fin (-17) 0)).map Encoder.bytes = .ok [255] ∧
    Encoder.encodeNumberTest (.fin 3 1) = 1 ∧
    ((Encoder.fresh [])._encodeNumber .nan).map Encoder.bytes
      = .ok [250, 127, 248, 0, 0, 0, 0, 0, 0] := by
  refine ⟨by decide!, by decide!, by decide!, by decide!, by decide!⟩

/-- Claim C5 (refuted on the code): for the length 65537 `_writeKindAndLength` writes, after the
tag 0xF4, the six bytes 00 01 00 01 00 01: `length >>> 32` shifts by 0, so the uint16 is
the low 16 bits of the length and not `floor (length / 2 ^ 32)`. -/
theorem writeKindAndLength_48bit_high_word :
    ((Encoder.fresh [])._writeKindAndLength 0 65537).map Encoder.bytes
      = .ok [244, 0, 1, 0, 1, 0, 1] ∧
    jsUShr 65537 32 = 65537 ∧ 65537 / 2 ^ 32 = 0 := by
  refine ⟨by decide!, by decide!, by decide⟩

/-- Claim C6 (refuted on the code): for the tags 0xF4 to 0xF7 the decoder uses the length
`(i << 32) | j`, a signed 32-bit value: the uint16 1 and the uint32 0 give length 1 (the
buffer below decodes to a one-element array), and the uint16 0 and the uint32 `2 ^ 31`
give length `-2 ^ 31`, on which `new Array` throws a `RangeError`. -/
theorem decodeValue_48bit_length :
    Decoder.length48 1 0 = 1 ∧
    Decoder.length48 0 2147483648 = -2147483648 ∧
    Decoder.decode (DataView.ofBytes [211, 74, 82, 98, 1, 0, 0, 0, 244, 0, 1, 0, 0, 0, 0, 252]) []
      = .ok (.array [.null]) ∧
    Decoder.decode (DataView.ofBytes [211, 74, 82, 98, 1, 0, 0, 0, 244, 0, 0, 128, 0, 0, 0, 252]) []
      = .error .rangeError := by
  refine ⟨by decide!, by decide!, by decide!, by decide!⟩

/-- Claim C4: size-class selection of `Encoder._writeKindAndLength`. For a kind `k` in
0, 1, 2 and a length `L`, on an encoder whose offset lies within its buffer of at least
7 bytes (as in every reachable state by `Encoder.Reachable.fits`): `L ≤ 7` appends the
single byte `0xD0 + 8 * k + L`; `8 ≤ L ≤ 65535` appends `0xF0 + k` and `L` as a
big-endian uint16; `65536 ≤ L ≤ 2 ^ 48 - 1` appends `0xF4 + k` and six further bytes; and
the call throws exactly when `L > 2 ^ 48 - 1`. -/
theorem writeKindAndLength_size_classes (e : Encoder) (k L : Nat) (hk : k ≤ 2)
    (h3 : e.offset ≤ e.capacity) (h4 : 7 ≤ e.capacity) :
    (L ≤ 7 → ∃ e', e._writeKindAndLength k L = .ok e' ∧
        e'.bytes = e.bytes ++ [208 + 8 * k + L]) ∧
    (8 ≤ L → L ≤ 65535 → ∃ e', e._writeKindAndLength k L = .ok e' ∧
        e'.bytes = e.bytes ++ [240 + k, L / 256, L % 256]) ∧
    (65536 ≤ L → L ≤ 281474976710655 → ∃ e' b1 b2 b3 b4 b5 b6,
        e._writeKindAndLength k L = .ok e' ∧
        e'.bytes = e.bytes ++ [244 + k, b1, b2, b3, b4, b5, b6]) ∧
    ((∃ err, e._writeKindAndLength k L = .error err) ↔ 281474976710655 < L) ∧
    (281474976710655 < L → e._writeKindAndLength k L = .error (.lengthExceeds48Bits L)) := by
  have c1 : L ≤ 7 → ∃ e', e._writeKindAndLength k L = .ok e' ∧
      e'.bytes = e.bytes ++ [208 + 8 * k + L] := by
    intro hL
    simp only [Encoder._writeKindAndLength, hL, if_true, Encoder.setUint8,
      kind_tag_byte k L hk hL]
    rw [Encoder.write_extend e 1 [208 + 8 * k + L] rfl h3 (by omega)]
    exact ⟨_, rfl, rfl⟩
  have c2 : 8 ≤ L → L ≤ 65535 → ∃ e', e._writeKindAndLength k L = .ok e' ∧
      e'.bytes = e.bytes ++ [240 + k, L / 256, L % 256] := by
    intro hL1 hL2
    have hn : ¬ L ≤ 7 := by omega
    have hb : ((240 + (k : Int)) % 256).toNat = 240 + k := by omega
    have hroom := Encoder.extendBuffer_room e 3 h3 (by omega)
    simp only [Encoder._writeKindAndLength, hn, hL2, if_true, if_false, Encoder.setUint8,
      Encoder.setUint16, hb, uint16Bytes_of_lt L hL2, bind, Except.bind]
    rw [Encoder.write_ok _ _ (by simp [Encoder.offset, Encoder.extendBuffer_bytes] at *; omega)]
    dsimp only
    rw [Encoder.write_ok _ _ (by simp [Encoder.offset, Encoder.extendBuffer_bytes] at *; omega)]
    exact ⟨_, rfl, by simp [Encoder.extendBuffer_bytes]⟩
  have c3 : 65536 ≤ L → L ≤ 281474976710655 → ∃ e' b1 b2 b3 b4 b5 b6,
      e._writeKindAndLength k L = .ok e' ∧
      e'.bytes = e.bytes ++ [244 + k, b1, b2, b3, b4, b5, b6] := by
    intro hL1 hL2
    have hn : ¬ L ≤ 7 := by omega
    have hn2 : ¬ L ≤ 65535 := by omega
    have hb : ((244 + (k : Int)) % 256).toNat = 244 + k := by omega
    have hroom := Encoder.extendBuffer_room e 7 h3 (by omega)
    simp only [Encoder._writeKindAndLength, hn, hn2, hL2, if_true, if_false, Encoder.setUint8,
      Encoder.setUint16, Encoder.setUint32, hb, bind, Except.bind, uint16Bytes, uint32Bytes]
    rw [Encoder.write_ok _ _ (by simp [Encoder.offset, Encoder.extendBuffer_bytes] at *; omega)]
    dsimp only
    rw [Encoder.write_ok _ _ (by simp [Encoder.offset, Encoder.extendBuffer_bytes] at *; omega)]
    dsimp only
    rw [Encoder.write_ok _ _ (by simp [Encoder.offset, Encoder.extendBuffer_bytes] at *; omega)]
    refine ⟨_, (jsUShr (↑L) 32 % 65536).toNat / 256, (jsUShr (↑L) 32 % 65536).toNat % 256,
      toUint32 (jsAnd (↑L) 4294967295) / 16777216,
      toUint32 (jsAnd (↑L) 4294967295) / 65536 % 256,
      toUint32 (jsAnd (↑L) 4294967295) / 256 % 256,
      toUint32 (jsAnd (↑L) 4294967295) % 256, rfl, ?_⟩
    simp only [Encoder.extendBuffer_bytes, List.append_assoc, List.singleton_append,
      List.cons_append, List.nil_append]
  have c5 : 281474976710655 < L →
      e._writeKindAndLength k L = .error (.lengthExceeds48Bits L) := by
    intro hL
    have hn : ¬ L ≤ 7 := by omega
    have hn2 : ¬ L ≤ 65535 := by omega
    have hn3 : ¬ L ≤ 281474976710655 := by omega
    simp only [Encoder._writeKindAndLength, hn, hn2, hn3, if_false]
  refine ⟨c1, c2, c3, ⟨?_, ?_⟩, c5⟩
  · rintro ⟨err, herr⟩
    by_contra hL
    by_cases a1 : L ≤ 7
    · obtain ⟨e', he', _⟩ := c1 a1
      rw [he'] at herr; cases herr
    · by_cases a2 : L ≤ 65535
      · obtain ⟨e', he', _⟩ := c2 (by omega) a2
        rw [he'] at herr; cases herr
      · obtain ⟨e', _, _, _, _, _, _, he', _⟩ := c3 (by omega) (by omega)
        rw [he'] at herr; cases herr
  · intro hL
    exact ⟨_, c5 hL⟩

theorem writeKindAndLength_size_classes_witness :
    (2 : Nat) ≤ 2 ∧ (Encoder.fresh []).offset ≤ (Encoder.fresh []).capacity ∧
    7 ≤ (Encoder.fresh []).capacity ∧
    ∃ e', (Encoder.fresh [])._writeKindAndLength 2 8 = .ok e' ∧
      e'.bytes = (Encoder.fresh []).bytes ++ [240 + 2, 8 / 256, 8 % 256] :=
  ⟨by decide, by decide, by decide,
    (writeKindAndLength_size_classes (Encoder.fresh []) 2 8 (by decide) (by decide)
      (by decide)).2.1 (by decide) (by decide)⟩

/-- Claim C7 (refuted on the code): a string of the static dictionary is not always written as
a two-byte reference. (1) The assignment `_staticPositions["__proto__"] = 0` creates no
own property, so with the dictionary `["__proto__"]` the string "__proto__" is written as
a literal of 12 bytes and stored in slot 0 of the dynamic dictionary. (2) The static branch
calls `_extendBuffer(2)`, so at offset `capacity - 1` the two-byte write throws. -/
theorem static_reference_not_two_bytes :
    (Encoder.encode (.string "__proto__") ["__proto__"]).map DataView.toBytes
      = .ok [211, 74, 82, 98, 1, 0, 0, 1,
             242, 0, 9, 95, 95, 112, 114, 111, 116, 111, 95, 95] ∧
    ((Encoder.fresh ["__proto__"]).encodeValueState (.string "__proto__")).map
        (fun e => (e.dynamicDictionary 0, e.dynamicInserted))
      = .ok (some "__proto__", 1) ∧
    Encoder.encode (.array (List.replicate 67108848 Value.null ++ [.string "s"])) ["s"]
      = .error .rangeError ∧
    (Encoder.encode (.array [.string "s"]) ["s"]).map DataView.toBytes
      = .ok [211, 74, 82, 98, 1, 0, 0, 1, 209, 192, 0] := by
  refine ⟨by decide!, by decide!, ?_, by decide!⟩
  exact Encoder.encode_static_hit_overflow 67108848 (by decide) (by decide) (by decide)
    (by decide)

/-- Claim C8 (refuted on the code): the one-string sequence U+FEFF (3 bytes of UTF-8) is written
as a literal and the encoder stores it in slot 0; `TextDecoder` drops the leading byte
order mark, so the decoder reads the empty string, stores nothing, and its slot 0 still
holds the empty string. -/
theorem dictionary_slots_diverge_on_bom :
    (textEncode "\uFEFF").length = 3 ∧
    (Encoder.encode (.array [.string "\uFEFF"]) []).map DataView.toBytes
      = .ok [211, 74, 82, 98, 1, 0, 0, 0, 209, 227, 239, 187, 191] ∧
    ((Encoder.fresh []).encodeValueState (.array [.string "\uFEFF"])).map
        (fun e => (e.dynamicDictionary 0, e.dynamicInserted))
      = .ok (some "\uFEFF", 1) ∧
    (Decoder.run (DataView.ofBytes [211, 74, 82, 98, 1, 0, 0, 0, 209, 227, 239, 187, 191]) []).map
        (fun r => (r.1, r.2.dynamicDictionary 0, r.2.dynamicDictionaryOffset))
      = .ok (.array [.string ""], "", 0) ∧
    roundTrip (.array [.string "\uFEFF", .string "a", .string "a"]) []
      = .ok (.array [.string "", .string "a", .string ""]) := by
  refine ⟨by decide!, by decide!, by decide!, by decide!, by decide!⟩

/-- Claim C9 (refuted on the code): `_decodeString` tests the length of the decoded string in
UTF-16 code units, `_encodeString` the length in UTF-8 bytes. The string of 65 letters
U+00E9 has 130 bytes and 65 code units: the encoder does not insert it, the decoder does,
and a later dynamic reference resolves to a different string. -/
theorem eligibility_differs_utf8_utf16 :
    (textEncode (String.mk (List.replicate 65 'é'))).length = 130 ∧
    utf16Length (String.mk (List.replicate 65 'é')) = 65 ∧
    ((Encoder.fresh []).encodeValueState (.string (String.mk (List.replicate 65 'é')))).map
        (fun e => (e.dynamicDictionary 0, e.dynamicInserted))
      = .ok (none, 0) ∧
    (match Encoder.encode (.string (String.mk (List.replicate 65 'é'))) [] with
      | .ok view => (Decoder.run view []).map
          (fun (r : Value × Decoder) => (r.2.dynamicDictionary 0, r.2.dynamicDictionaryOffset))
      | .error _ => .error .outOfFuel)
      = .ok (String.mk (List.replicate 65 'é'), 1) ∧
    roundTrip (.array [.string (String.mk (List.replicate 65 'é')), .string "a", .string "a"]) []
      = .ok (.array [.string (String.mk (List.replicate 65 'é')), .string "a",
                     .string (String.mk (List.replicate 65 'é'))]) := by
  refine ⟨by decide!, by decide!, by decide!, by decide!, by decide!⟩

/-- Claim C10: the reverse-map invariant. In every state the encoder reaches from a freshly
constructed one (in particular after every call of `_encodeString`), each string `s` that
`_dynamicPositions` maps to a slot `p` is the content of slot `p` of `_dynamicDictionary`,
and `p` differs from `_dynamicInserted mod 128`, the slot the next insertion overwrites. -/
theorem reverse_map_invariant (e : Encoder) (h : e.Reachable) :
    ∀ (s : String) (p : Nat), e.dynamicPositions s = some p →
      e.dynamicDictionary p = some s ∧ p ≠ e.dynamicInserted % 128 := by
  induction h with
  | fresh D => intro s p hp; simp [Encoder.fresh, JsMap.empty] at hp
  | header value _ hstep ih => exact Encoder.inv_encodeValueState hstep ih
  | encodeValue value _ hstep ih => exact Encoder.inv_encodeValue value _ _ hstep ih
  | encodeString value _ hstep ih => exact Encoder.inv_encodeString hstep ih
  | encodeNumber value _ hstep ih => exact (Encoder.sameDictionary_encodeNumber hstep).inv ih
  | encodeBoolean value _ hstep ih => exact (Encoder.sameDictionary_encodeBoolean hstep).inv ih
  | encodeNull _ hstep ih => exact (Encoder.sameDictionary_encodeNull hstep).inv ih
  | writeKindAndLength kind length _ hstep ih =>
    exact (Encoder.sameDictionary_writeKindAndLength hstep).inv ih

theorem reverse_map_invariant_witness :
    ∃ e', (Encoder.fresh [])._encodeString "a" = .ok e' ∧
      e'.dynamicPositions "a" = some 0 ∧
      (e'.dynamicDictionary 0 = some "a" ∧ 0 ≠ e'.dynamicInserted % 128) := by
  have h : (Encoder.fresh [])._encodeString "a"
      = .ok (Encoder.insertDynamic { Encoder.fresh [] with bytes := [225, 97] } "a") := by
    rfl
  have hp : (Encoder.insertDynamic { Encoder.fresh [] with bytes := [225, 97] } "a").dynamicPositions
      "a" = some 0 := by decide
  exact ⟨_, h, hp, reverse_map_invariant _
    (Encoder.Reachable.encodeString "a" (Encoder.Reachable.fresh []) h) "a" 0 hp⟩

/-- Claim C11: the worked example. With an empty static dictionary the object
`{"a": 1, "b": "a"}` is encoded as the header D3 4A 52 62 01 00 00 00 followed by
DA E1 61 91 E1 62 00; the key "a" was given slot 0 of the dynamic dictionary, and the last
byte 0x00 is the reference to that slot. Decoding those bytes gives the object with the
keys a, b in this order and the values 1 and "a". -/
theorem worked_example_object :
    (Encoder.encode (.object [("a", .number (.fin 1 0)), ("b", .string "a")]) []).map
        DataView.toBytes
      = .ok [211, 74, 82, 98, 1, 0, 0, 0, 218, 225, 97, 145, 225, 98, 0] ∧
    ((Encoder.fresh []).encodeValueState
        (.object [("a", .number (.fin 1 0)), ("b", .string "a")])).map
        (fun e => e.dynamicPositions "a") = .ok (some 0) ∧
    Decoder.decode (DataView.ofBytes
        [211, 74, 82, 98, 1, 0, 0, 0, 218, 225, 97, 145, 225, 98, 0]) []
      = .ok (.object [("a", .number (.fin 1 0)), ("b", .string "a")]) ∧
    roundTrip (.object [("a", .number (.fin 1 0)), ("b", .string "a")]) []
      = .ok (.object [("a", .number (.fin 1 0)), ("b", .string "a")]) := by
  refine ⟨by decide!, by decide!, by decide!, by decide!⟩

/-- Claim C12 (refuted on the code): a header that declares 3000 entries against a
supplied dictionary of one string makes the constructor throw a `ReferenceError` (the
test against 2048 comes first and names the undeclared `offset`), not a `DecoderError` at
offset 6. For a declared size of at most 2048 that exceeds the length of the supplied
dictionary the constructor, and `Decoder.decode`, do throw a `DecoderError` at offset 6. -/
theorem declared_size_above_supplied :
    Decoder.new (DataView.ofBytes [211, 74, 82, 98, 1, 0, 11, 184]) ["a"]
      = .error .referenceError ∧
    Decoder.decode (DataView.ofBytes [211, 74, 82, 98, 1, 0, 11, 184, 252]) ["a"]
      = .error .referenceError ∧
    (∀ (view : DataView) (D : List String), 8 ≤ view.byteLength →
      view.buffer.byteAt view.byteOffset = 211 → view.buffer.byteAt (view.byteOffset + 1) = 74 →
      view.buffer.byteAt (view.byteOffset + 2) = 82 →
      view.buffer.byteAt (view.byteOffset + 3) = 98 →
      view.buffer.byteAt (view.byteOffset + 4) = 1 →
      view.buffer.byteAt (view.byteOffset + 5) = 0 →
      view.buffer.byteAt (view.byteOffset + 6) * 256 + view.buffer.byteAt (view.byteOffset + 7)
        ≤ 2048 →
      D.length < view.buffer.byteAt (view.byteOffset + 6) * 256
        + view.buffer.byteAt (view.byteOffset + 7) →
      Decoder.new view D = .error (.decoderError 6) ∧
      Decoder.decode view D = .error (.decoderError 6)) := by
  refine ⟨by rfl, by decide!, ?_⟩
  intro view D h c0 c1 c2 c3 c4 c5 hs hD
  have hn : Decoder.new view D = .error (.decoderError 6) := by
    rw [Decoder.new_eq view D h]
    simp [c0, c1, c2, c3, c4, c5, hD]
    omega
  exact ⟨hn, by simp [Decoder.decode, Decoder.run, hn, bind, Except.bind]⟩

/-- Claim C13 (refuted on the code): when the header declares more than 2048 entries the
constructor evaluates `new DecoderError(offset, ...)`, where `offset` is an undeclared
identifier, and throws a `ReferenceError`; no `DecoderError` with offset 6 is thrown,
whatever the supplied dictionary. -/
theorem declared_size_above_2048 :
    Decoder.new (DataView.ofBytes [211, 74, 82, 98, 1, 0, 8, 1]) [] = .error .referenceError ∧
    Decoder.decode (DataView.ofBytes [211, 74, 82, 98, 1, 0, 8, 1, 252])
        (List.replicate 2049 "") = .error .referenceError ∧
    (∀ (view : DataView) (D : List String), 8 ≤ view.byteLength →
      view.buffer.byteAt view.byteOffset = 211 → view.buffer.byteAt (view.byteOffset + 1) = 74 →
      view.buffer.byteAt (view.byteOffset + 2) = 82 →
      view.buffer.byteAt (view.byteOffset + 3) = 98 →
      view.buffer.byteAt (view.byteOffset + 4) = 1 →
      view.buffer.byteAt (view.byteOffset + 5) = 0 →
      2048 < view.buffer.byteAt (view.byteOffset + 6) * 256
        + view.buffer.byteAt (view.byteOffset + 7) →
      Decoder.new view D = .error .referenceError ∧
      Decoder.decode view D = .error .referenceError) := by
  refine ⟨by rfl, by decide!, ?_⟩
  intro view D h c0 c1 c2 c3 c4 c5 hs
  have hn : Decoder.new view D = .error .referenceError := by
    rw [Decoder.new_eq view D h]
    simp [c0, c1, c2, c3, c4, c5, hs]
  exact ⟨hn, by simp [Decoder.decode, Decoder.run, hn, bind, Except.bind]⟩

/-- Claim C14: header validation order and positions. On every view of at least eight
bytes the constructor, and with it `Decoder.decode`, throws a `DecoderError` at offset 0
when the bytes 0 to 3 are not D3 4A 52 62; otherwise at offset 4 when byte 4 is not 1;
otherwise at offset 5 when byte 5 is not 0. The outcome is fixed by the bytes 0 to 5
alone: the failure comes from the constructor, before `decodeValue` reads any byte of a
value. -/
theorem header_validation_order (view : DataView) (D : List String)
    (h : 8 ≤ view.byteLength) :
    (¬ (view.buffer.byteAt view.byteOffset = 211 ∧
        view.buffer.byteAt (view.byteOffset + 1) = 74 ∧
        view.buffer.byteAt (view.byteOffset + 2) = 82 ∧
        view.buffer.byteAt (view.byteOffset + 3) = 98) →
      Decoder.new view D = .error (.decoderError 0) ∧
      Decoder.decode view D = .error (.decoderError 0)) ∧
    (view.buffer.byteAt view.byteOffset = 211 ∧
        view.buffer.byteAt (view.byteOffset + 1) = 74 ∧
        view.buffer.byteAt (view.byteOffset + 2) = 82 ∧
        view.buffer.byteAt (view.byteOffset + 3) = 98 →
      (view.buffer.byteAt (view.byteOffset + 4) ≠ 1 →
        Decoder.new view D = .error (.decoderError 4) ∧
        Decoder.decode view D = .error (.decoderError 4)) ∧
      (view.buffer.byteAt (view.byteOffset + 4) = 1 →
        view.buffer.byteAt (view.byteOffset + 5) ≠ 0 →
        Decoder.new view D = .error (.decoderError 5) ∧
        Decoder.decode view D = .error (.decoderError 5))) := by
  have hd : ∀ err, Decoder.new view D = .error err → Decoder.decode view D = .error err := by
    intro err he
    simp [Decoder.decode, Decoder.run, he, bind, Except.bind]
  have hn := Decoder.new_eq view D h
  refine ⟨fun hm => ?_, fun hm => ⟨fun h4 => ?_, fun h4 h5 => ?_⟩⟩
  · have : Decoder.new view D = .error (.decoderError 0) := by
      rw [hn]
      by_cases c0 : view.buffer.byteAt view.byteOffset = 211
      swap
      · simp [c0]
      by_cases c1 : view.buffer.byteAt (view.byteOffset + 1) = 74
      swap
      · simp [c0, c1]
      by_cases c2 : view.buffer.byteAt (view.byteOffset + 2) = 82
      swap
      · simp [c0, c1, c2]
      by_cases c3 : view.buffer.byteAt (view.byteOffset + 3) = 98
      swap
      · simp [c0, c1, c2, c3]
      exact absurd ⟨c0, c1, c2, c3⟩ hm
    exact ⟨this, hd _ this⟩
  · have : Decoder.new view D = .error (.decoderError 4) := by
      rw [hn]; simp [hm.1, hm.2.1, hm.2.2.1, hm.2.2.2, h4]
    exact ⟨this, hd _ this⟩
  · have : Decoder.new view D = .error (.decoderError 5) := by
      rw [hn]; simp [hm.1, hm.2.1, hm.2.2.1, hm.2.2.2, h4, h5]
    exact ⟨this, hd _ this⟩

theorem header_validation_order_witness :
    8 ≤ (DataView.ofBytes [211, 74, 82, 98, 2, 7, 0, 0, 252]).byteLength ∧
    Decoder.decode (DataView.ofBytes [211, 74, 82, 98, 2, 7, 0, 0, 252]) []
      = .error (.decoderError 4) :=
  ⟨by decide, (((header_validation_order (DataView.ofBytes [211, 74, 82, 98, 2, 7, 0, 0, 252]) []
    (by decide)).2 (by decide)).1 (by decide)).2⟩


/-- Claim C15: the reserved tags 0xFB and 0xFF. A call of `decodeValue` that reads such a
tag at its offset `p` throws a `DecoderError` with offset `p` and returns no value, in
whatever state and at whatever depth the call is made. At the top level, after a valid
header, `p` is 8 and `Decoder.decode` fails with that error. Below `k` nested arrays of
one element the tag sits at offset `8 + k` and `Decoder.decode` fails with a
`DecoderError` at `8 + k`. In general the exception of a nested call of `decodeValue` is
the exception of the enclosing array, object or data value: of the element loop (at the
current element and after decoded ones), of the field loop (in key position, in value
position, and after decoded fields), of `_decodeData` (media type), and of `_decodeArray`
and `_decodeObject` around their loops. -/
theorem reserved_tag_fails (tag : Nat) (ht : tag = 251 ∨ tag = 255) :
    (∀ (d : Decoder) (fuel : Nat), d._byte 0 = .ok tag →
      d.decodeValue (fuel + 1) = .error (.decoderError d.offset)) ∧
    (∀ (view : DataView) (D : List String) (d : Decoder), Decoder.new view D = .ok d →
      d._byte 0 = .ok tag →
      d.offset = 8 ∧ Decoder.decode view D = .error (.decoderError 8)) ∧
    (∀ (k : Nat) (rest : List Nat),
      Decoder.decode (DataView.ofBytes
          ([211, 74, 82, 98, 1, 0, 0, 0] ++ List.replicate k 209 ++ [tag] ++ rest)) []
        = .error (.decoderError (8 + k))) ∧
    (∀ (e : DecoderFailure) (fuel : Nat) (d : Decoder),
      (∀ count, d.decodeValue fuel = .error e →
        Decoder.decodeElements (fuel + 1) d (count + 1) = .error e) ∧
      (∀ count v d1, d.decodeValue fuel = .ok (v, d1) →
        Decoder.decodeElements fuel d1 count = .error e →
        Decoder.decodeElements (fuel + 1) d (count + 1) = .error e) ∧
      (∀ count result, d.decodeValue fuel = .error e →
        Decoder.decodeFields (fuel + 1) d (count + 1) result = .error e) ∧
      (∀ count result name d1, d.decodeValue fuel = .ok (.string name, d1) →
        d1.decodeValue fuel = .error e →
        Decoder.decodeFields (fuel + 1) d (count + 1) result = .error e) ∧
      (∀ count result name d1 v d2, d.decodeValue fuel = .ok (.string name, d1) →
        d1.decodeValue fuel = .ok (v, d2) →
        Decoder.decodeFields fuel d2 count (objectSet result name v) = .error e →
        Decoder.decodeFields (fuel + 1) d (count + 1) result = .error e) ∧
      (∀ len, d.decodeValue fuel = .error e → Decoder._decodeData (fuel + 1) d len = .error e) ∧
      (∀ len : Int, 0 ≤ len → len < 4294967296 →
        Decoder.decodeElements fuel d len.toNat = .error e →
        Decoder._decodeArray (fuel + 1) d len = .error e) ∧
      (∀ len : Int, Decoder.decodeFields fuel d len.toNat [] = .error e →
        Decoder._decodeObject (fuel + 1) d len = .error e)) := by
  refine ⟨fun d fuel h => Decoder.decodeValue_reserved d fuel tag ht h, ?_, ?_,
    fun e fuel d => Decoder.error_propagates e fuel d⟩
  · intro view D d hnew hb
    have ho : d.offset = 8 := by
      rcases Decoder.new_cases view D with ⟨err, h, _⟩ | ⟨d1, h, _, ho⟩
      · rw [h] at hnew; cases hnew
      · rw [h] at hnew; cases hnew; exact ho
    refine ⟨ho, ?_⟩
    simp only [Decoder.decode, Decoder.run, hnew, bind, Except.bind]
    rw [show 3 * view.byteLength + 3 = (3 * view.byteLength + 2) + 1 from rfl,
      Decoder.decodeValue_reserved d _ tag ht hb, ho]
  · intro k rest
    have hnew := Decoder.new_of_header (List.replicate k 209 ++ [tag] ++ rest)
      ([211, 74, 82, 98, 1, 0, 0, 0] ++ List.replicate k 209 ++ [tag] ++ rest).length
      ([211, 74, 82, 98, 1, 0, 0, 0] ++ List.replicate k 209 ++ [tag] ++ rest).length []
      (by decide) (by simp)
    have hview : DataView.ofBytes
        ([211, 74, 82, 98, 1, 0, 0, 0] ++ List.replicate k 209 ++ [tag] ++ rest)
      = { buffer := { bytes := [211, 74, 82, 98, 1, 0] ++ uint16Bytes (([] : List String).length : Int)
                        ++ (List.replicate k 209 ++ [tag] ++ rest),
                      byteLength := ([211, 74, 82, 98, 1, 0, 0, 0] ++ List.replicate k 209
                        ++ [tag] ++ rest).length },
          byteOffset := 0,
          byteLength := ([211, 74, 82, 98, 1, 0, 0, 0] ++ List.replicate k 209
                        ++ [tag] ++ rest).length } := by
      simp [DataView.ofBytes, uint16Bytes]
    have hg := list_getD_nested [211, 74, 82, 98, 1, 0, 0, 0] rest k tag
    simp only [Decoder.decode, Decoder.run, bind, Except.bind]
    rw [hview, hnew]
    simp only []
    rw [Decoder.decodeValue_nested_reserved tag ht k _ _ (by simp; omega)]
    · intro i hi
      have := hg.1 i hi
      simp only [Decoder._byte, DataView.getUint8, ArrayBuffer.byteAt]
      rw [if_pos (by simp; omega)]
      simp [uint16Bytes] at this ⊢
      exact this
    · have := hg.2
      simp only [Decoder._byte, DataView.getUint8, ArrayBuffer.byteAt]
      rw [if_pos (by simp; omega)]
      simp [uint16Bytes] at this ⊢
      exact this

theorem reserved_tag_fails_witness :
    ((255 : Nat) = 251 ∨ (255 : Nat) = 255) ∧
    Decoder.decode (DataView.ofBytes
        ([211, 74, 82, 98, 1, 0, 0, 0] ++ List.replicate 2 209 ++ [255] ++ [252])) []
      = .error (.decoderError (8 + 2)) :=
  ⟨by decide, (reserved_tag_fails 255 (by decide)).2.2.1 2 [252]⟩


/-- Claim C18 (refuted on the code): the payload of a data value does not enter the result.
`btoa(v)` converts the `DataView` to the string "[object DataView]" and encodes that, so
the data value of media type "A" with the one payload byte 0x00 and the one with the
byte 0xFF both decode to "data:A,W29iamVjdCBEYXRhVmlld10=", where the standard base64
encodings of the payloads are "AA==" and "/w==". The bytes are consumed as the claim
says (the offset ends at 12). -/
theorem data_payload_ignored :
    (Decoder.run (DataView.ofBytes [211, 74, 82, 98, 1, 0, 0, 0, 233, 225, 65, 0]) []).map
        (fun r => (r.1, r.2.offset))
      = .ok (.string "data:A,W29iamVjdCBEYXRhVmlld10=", 12) ∧
    Decoder.decode (DataView.ofBytes [211, 74, 82, 98, 1, 0, 0, 0, 233, 225, 65, 255]) []
      = .ok (.string "data:A,W29iamVjdCBEYXRhVmlld10=") ∧
    String.mk (specBase64 [0]) = "AA==" ∧ String.mk (specBase64 [255]) = "/w==" ∧
    String.mk (specBase64 (textEncode "[object DataView]")) = btoaOfDataView := by
  refine ⟨by decide!, by decide!, by decide!, by decide!, by decide!⟩

/-- Claim C19: the constructor of the encoder throws exactly when the static dictionary
has more than 2048 entries, and then `Encoder.encode` throws the same string for every
value; with at most 2048 entries (an absent dictionary is the empty one) construction
succeeds, and `Encoder.encode` of the number 0 succeeds. -/
theorem encoder_construction (D : List String) :
    ((∃ err, Encoder.new D = .error err) ↔ 2048 < D.length) ∧
    (2048 < D.length → Encoder.new D = .error .staticDictionaryTooLong ∧
      ∀ value, Encoder.encode value D = .error .staticDictionaryTooLong) ∧
    (D.length ≤ 2048 → Encoder.new D = .ok (Encoder.fresh D) ∧
      ∃ view, Encoder.encode (.number (.fin 0 0)) D = .ok view) ∧
    Encoder.new [] = .ok (Encoder.fresh []) := by
  have h1 : 2048 < D.length → Encoder.new D = .error .staticDictionaryTooLong := by
    intro h; simp [Encoder.new, h]
  have h2 : D.length ≤ 2048 → Encoder.new D = .ok (Encoder.fresh D) := by
    intro h
    have : ¬ D.length > 2048 := by omega
    simp [Encoder.new, this]
  refine ⟨⟨?_, fun h => ⟨_, h1 h⟩⟩, fun h => ⟨h1 h, fun value => ?_⟩,
    fun h => ⟨h2 h, _, Encoder.encode_inline 0 (by decide) (by decide) D h⟩, rfl⟩
  · rintro ⟨err, herr⟩
    by_contra hn
    rw [h2 (by omega)] at herr
    cases herr
  · simp [Encoder.encode, h1 h, bind, Except.bind]

/-- Claim C20 (refuted on the code): an object with the key "__proto__" does not survive the
round trip. The encoder writes the key as a literal; in the decoder `result[f] = v` with
`f = "__proto__"` reaches the setter of `Object.prototype` and adds no own property, so
`{"__proto__": 1}` decodes to the empty object and `{"a": null, "__proto__": "a"}` to
`{"a": null}`. -/
theorem roundTrip_proto_key :
    (Encoder.encode (.object [("__proto__", .number (.fin 1 0))]) []).map DataView.toBytes
      = .ok [211, 74, 82, 98, 1, 0, 0, 0,
             217, 242, 0, 9, 95, 95, 112, 114, 111, 116, 111, 95, 95, 145] ∧
    roundTrip (.object [("__proto__", .number (.fin 1 0))]) [] = .ok (.object []) ∧
    roundTrip (.object [("a", .null), ("__proto__", .string "a")]) []
      = .ok (.object [("a", .null)]) := by
  refine ⟨by decide!, by decide!, by decide!⟩

/-- Claim C17: trailing bytes are ignored. When `Decoder.decode` of the buffer `B` with the
static dictionary `D` returns the value `V`, then for every byte sequence `T` the call
`Decoder.decode` of the buffer `B ++ T` with `D` returns `V` as well. -/
theorem trailing_bytes_ignored (B T : List Nat) (D : List String) (V : Value)
    (h : Decoder.decode (DataView.ofBytes B) D = .ok V) :
    Decoder.decode (DataView.ofBytes (B ++ T)) D = .ok V :=
  Decoder.decode_extends (DataView.extends_append B T) D V h

theorem trailing_bytes_ignored_witness :
    Decoder.decode (DataView.ofBytes [211, 74, 82, 98, 1, 0, 0, 0, 209, 145]) []
      = .ok (.array [.number (.fin 1 0)]) ∧
    Decoder.decode (DataView.ofBytes ([211, 74, 82, 98, 1, 0, 0, 0, 209, 145] ++ [251, 7])) []
      = .ok (.array [.number (.fin 1 0)]) :=
  ⟨by decide!, trailing_bytes_ignored [211, 74, 82, 98, 1, 0, 0, 0, 209, 145] [251, 7] []
    (.array [.number (.fin 1 0)]) (by decide!)⟩

/-- Claim C16 as stated fails on the code: a payload that needs more bytes than the buffer holds
ends in the `RangeError` of `DataView`, not in a `DecoderError` with an offset. So end a
32-bit integer cut after two bytes, a string of declared length 5 with two bytes, an array
of three elements with one, a 16-bit length cut after one byte, and a static reference
without its index byte. -/
theorem truncation_range_error_not_decoder_error :
    Decoder.decode (DataView.ofBytes [211, 74, 82, 98, 1, 0, 0, 0, 248, 0, 0]) []
      = .error .rangeError ∧
    Decoder.decode (DataView.ofBytes [211, 74, 82, 98, 1, 0, 0, 0, 229, 97, 98]) []
      = .error .rangeError ∧
    Decoder.decode (DataView.ofBytes [211, 74, 82, 98, 1, 0, 0, 0, 211, 252]) []
      = .error .rangeError ∧
    Decoder.decode (DataView.ofBytes [211, 74, 82, 98, 1, 0, 0, 0, 240, 0]) []
      = .error .rangeError ∧
    Decoder.decode (DataView.ofBytes [211, 74, 82, 98, 1, 0, 0, 0, 192]) []
      = .error .rangeError ∧
    ¬ ∃ o, Decoder.decode (DataView.ofBytes [211, 74, 82, 98, 1, 0, 0, 0, 248, 0, 0]) []
      = .error (.decoderError o) := by
  refine ⟨by decide!, by decide!, by decide!, by decide!, by decide!, ?_⟩
  rintro ⟨o, h⟩
  have h2 : Decoder.decode (DataView.ofBytes [211, 74, 82, 98, 1, 0, 0, 0, 248, 0, 0]) []
      = .error .rangeError := by decide!
  rw [h2] at h
  cases h

/-- Claim C16, amended: truncation ends in a `RangeError`. Let the buffer `B` (a view over
exactly its bytes) decode with the dictionary `D` to the value `V`, the decoder ending at
offset `k`. Then `k` lies within `B`, and for every `m < k` the decoding of the first `m`
bytes of `B` throws a `RangeError`: it returns no value, and every read stays inside the
truncated buffer. -/
theorem truncated_buffer_range_error (B : List Nat) (D : List String) (V : Value)
    (k m : Nat)
    (h : (Decoder.run (DataView.ofBytes B) D).map (fun r => (r.1, r.2.offset)) = .ok (V, k))
    (hm : m < k) :
    k ≤ B.length ∧ Decoder.decode (DataView.ofBytes B) D = .ok V ∧
    Decoder.decode (DataView.ofBytes (B.take m)) D = .error .rangeError := by
  cases hr : Decoder.run (DataView.ofBytes B) D with
  | error err => rw [hr] at h; cases h
  | ok r =>
    obtain ⟨v, d⟩ := r
    rw [hr] at h
    simp only [Except.map, Except.ok.injEq, Prod.mk.injEq] at h
    obtain ⟨rfl, rfl⟩ := h
    refine ⟨?_, by simp [Decoder.decode, hr, bind, Except.bind, pure, Except.pure], ?_⟩
    · rcases Decoder.run_truncates (DataView.extends_append B []) D with
        e | e | e | ⟨e, e1, _⟩ | ⟨a, d1, e1, e2, hd⟩
      · rw [hr] at e; cases e
      · rw [List.append_nil, hr] at e; cases e
      · rw [hr] at e; cases e
      · rw [hr] at e1; cases e1
      · rw [hr] at e1
        cases e1
        simpa [DataView.ofBytes, Decoder.withView] using hd
    · refine Decoder.decode_truncated (DataView.extends_take B m) D v d hr ?_
      simp only [DataView.ofBytes, List.length_take]
      omega

theorem truncated_buffer_range_error_witness :
    (Decoder.run (DataView.ofBytes [211, 74, 82, 98, 1, 0, 0, 0, 209, 226, 97, 98]) []).map
        (fun r => (r.1, r.2.offset)) = .ok (.array [.string "ab"], 12) ∧
    11 < 12 ∧
    Decoder.decode (DataView.ofBytes
        ([211, 74, 82, 98, 1, 0, 0, 0, 209, 226, 97, 98].take 11)) []
      = .error .rangeError :=
  ⟨by decide!, by decide,
    (truncated_buffer_range_error [211, 74, 82, 98, 1, 0, 0, 0, 209, 226, 97, 98] []
      (.array [.string "ab"]) 12 11 (by decide!) (by decide)).2.2⟩

end Jsonr
